import Mathlib

/-!
Shallow embedding of the reconciliation and ignore-matching core of the
`dof` treasure-map tool (`src/dof/api.py`), together with proofs of the
behavioural properties stated in its specification.

Modelling conventions:
* Python `dict`s keyed by location are modelled as insertion-ordered
  association lists `List (String × α)`; `dictGet` is `d.get(k)`,
  `dictUpdate` mutation of a value behind an existing key, `dictSet` is
  `d[k] = v` (update in place when present, append otherwise).
* Dates are modelled as natural numbers (day ordinals).
* A missing fingerprint (unreadable file, `None` in the source) is `none`.
* `PurePosixPath.match` (CPython 3.12, the version the source requires) is
  modelled segment-wise: a relative pattern matches a contiguous run of the
  path's segments that starts at a segment boundary and extends to the end
  of the path; `**` spans whole segments, `*` and `?` match within a single
  segment.  `fnmatch` character classes (`[...]`) are not modelled: the
  tool's specification only promises `*`, `?` and `**`.
* URL percent-encoding and `file://` URI construction are not modelled
  (links are carried through as opaque strings).
-/

namespace Dof

/-- `fnmatch`-style glob for a single path segment: `*` matches any run of
characters, `?` any single character, every other character literally. -/
def fnmatchList : List Char → List Char → Bool
  | [], s => s.isEmpty
  | '*' :: ps, s => (List.range (s.length + 1)).any (fun k => fnmatchList ps (s.drop k))
  | '?' :: ps, s => !s.isEmpty && fnmatchList ps s.tail
  | c :: ps, s =>
    match s with
    | [] => false
    | d :: cs => c = d && fnmatchList ps cs

/-- One pattern-line block of CPython 3.12 `PurePosixPath` matching: the
pattern segments must consume exactly the given path segments, where a
non-final `**` spans zero or more whole segments and a final `**` spans the
whole (non-empty) remainder.  A non-final pattern segment carries its `/`
separator, hence can never consume the final path segment. -/
def matchSegs : List String → List String → Bool
  | [], s => s.isEmpty
  | [p], s =>
    if p = "**" then !s.isEmpty
    else
      match s with
      | [c] => fnmatchList p.toList c.toList
      | _ => false
  | p :: ps, s =>
    if p = "**" then (List.range (s.length + 1)).any (fun k => matchSegs ps (s.drop k))
    else
      match s with
      | [] => false
      | c :: cs => fnmatchList p.toList c.toList && matchSegs ps cs

/-- `PurePosixPath(path).match(pat)` for a relative `pat` (CPython 3.12):
the compiled pattern is searched for at every segment boundary of the path
and must reach the end of the path. -/
def posixMatch (patParts parts : List String) : Bool :=
  (List.range parts.length).any (fun k => matchSegs patParts (parts.drop k))

/-- `str.split(sep)` for a single-character separator (Python semantics:
the empty string yields `[""]`, separators at the ends yield empty parts). -/
def splitOnChar (sep : Char) : List Char → List (List Char)
  | [] => [[]]
  | c :: rest =>
    match splitOnChar sep rest with
    | [] => [[]]
    | g :: gs => if c = sep then [] :: g :: gs else (c :: g) :: gs

/-- The `/`-separated segments of a (already normalised) relative path. -/
def pathSegs (s : String) : List String :=
  (splitOnChar '/' s.toList).map (fun l => String.mk l)

/-- `"/" in s`. -/
def hasSlash (s : String) : Bool :=
  s.toList.any (fun c => c = '/')

/-- One parsed `.treasureignore` rule (`IgnoreRule` in the source). -/
structure IgnoreRule where
  pattern : String
  negated : Bool
  dir_only : Bool
  root_anchored : Bool
deriving DecidableEq

/-- `_rule_matches(rel_posix, rule)`: does one ignore rule match a relative
POSIX path? -/
def rule_matches (rel_posix : String) (rule : IgnoreRule) : Bool :=
  if rule.root_anchored then
    if rule.dir_only then
      posixMatch (pathSegs (rule.pattern ++ "/**")) (pathSegs rel_posix) ||
        posixMatch (pathSegs rule.pattern) (pathSegs rel_posix)
    else
      !hasSlash rel_posix && posixMatch (pathSegs rule.pattern) (pathSegs rel_posix)
  else if rule.dir_only then
    if hasSlash rule.pattern then
      posixMatch (pathSegs (rule.pattern ++ "/**")) (pathSegs rel_posix) ||
        posixMatch (pathSegs rule.pattern) (pathSegs rel_posix)
    else
      (List.range (pathSegs rel_posix).length).any
        (fun i => posixMatch (pathSegs rule.pattern) ((pathSegs rel_posix).take (i + 1)))
  else if hasSlash rule.pattern then
    posixMatch (pathSegs rule.pattern) (pathSegs rel_posix)
  else
    posixMatch (pathSegs rule.pattern) (pathSegs rel_posix) ||
      posixMatch (pathSegs ("**/" ++ rule.pattern)) (pathSegs rel_posix)

/-- `_is_ignored(rel_posix, rules)`: fold over the rules in file order,
remembering the negation flag of the last matching rule.  An absent rule
file is modelled by the empty rule list (both are falsy in the source). -/
def is_ignored (rel_posix : String) (rules : List IgnoreRule) : Bool :=
  rules.foldl (fun ignored r => if rule_matches rel_posix r then !r.negated else ignored) false

/-- Modelled from the spec: "the final boolean is simply 'negated flag of
the last rule whose pattern matched', defaulting to not-excluded if no rule
matches". -/
def last_match_verdict (rel_posix : String) (rules : List IgnoreRule) : Bool :=
  match (rules.filter (fun r => rule_matches rel_posix r)).getLast? with
  | none => false
  | some r => !r.negated

/-- The whitespace characters stripped by Python `str.strip()`. -/
def pyIsSpace (c : Char) : Bool :=
  c = ' ' || c = '\t' || c = '\n' || c = '\x0b' || c = '\x0c' || c = '\r'

/-- Python `str.strip()`. -/
def pyStrip (s : String) : String :=
  String.mk (((s.toList.dropWhile pyIsSpace).reverse.dropWhile pyIsSpace).reverse)

/-- Digit run accepted by Python `int()`: decimal digits with single
underscores allowed between digits. -/
def pyDigitsAux : List Char → Nat → Option Nat
  | [], acc => some acc
  | '_' :: c :: cs, acc =>
    if c.isDigit then pyDigitsAux cs (acc * 10 + (c.toNat - 48)) else none
  | ['_'], _ => none
  | c :: cs, acc =>
    if c.isDigit then pyDigitsAux cs (acc * 10 + (c.toNat - 48)) else none

/-- See `pyDigitsAux`; the run must start with a digit. -/
def pyDigits (cs : List Char) : Option Nat :=
  match cs with
  | [] => none
  | c :: _ => if c.isDigit then pyDigitsAux cs 0 else none

/-- Python `int(str)`: optional surrounding whitespace, optional sign,
then a digit run; `none` models a raised `ValueError`. -/
def pyInt (s : String) : Option Int :=
  match (pyStrip s).toList with
  | '+' :: rest => (pyDigits rest).map (fun n => (n : Int))
  | '-' :: rest => (pyDigits rest).map (fun n => -(n : Int))
  | rest => (pyDigits rest).map (fun n => (n : Int))

/-- `_parse_version(v)`: split on `.`, parse the first two components as
integers, and fall back to `(1, 0)` when the value is absent or a component
fails to parse.  A persisted cell value is either a string or empty. -/
def parse_version (v : Option String) : Int × Int :=
  match v with
  | none => (1, 0)
  | some s =>
    match (splitOnChar '.' (pyStrip s).toList).map (fun l => String.mk l) with
    | [] => (1, 0)
    | a :: rest =>
      match pyInt a with
      | none => (1, 0)
      | some major =>
        match rest with
        | [] => (major, 0)
        | b :: _ =>
          match pyInt b with
          | none => (1, 0)
          | some minor => (major, minor)

/-- `_bump_version(v)`: `major, minor = _parse_version(v); minor += 1;
f"{major}.{minor}"`. -/
def bump_version (v : Option String) : String :=
  toString (parse_version v).1 ++ "." ++ toString ((parse_version v).2 + 1)

/-- Python `str` applied to an optional cell value (`str(None) = "None"`). -/
def pyStr (v : Option String) : String :=
  match v with
  | none => "None"
  | some s => s

/-- `_hash_changed(old, new)`: `True` only when both fingerprints are
present and differ (a proven content change). -/
def hash_changed (old new : Option String) : Bool :=
  match new with
  | none => false
  | some n =>
    match old with
    | none => false
    | some o => o != n

/-- One row of the visible `treasure_map` sheet, keyed by `Location`. -/
structure Row where
  fileName : String
  fileType : String
  description : String
  dateFound : Nat
  lastSeen : Nat
  linkTarget : String
  linkText : String
  version : Option String
  location : String
deriving DecidableEq

/-- A discovered file (`FoundFile` in the source); `sha256 = none` models a
file that could not be hashed this pass. -/
structure FoundFile where
  abs_path : String
  rel_location : String
  filename : String
  file_type : String
  sha256 : Option String
deriving DecidableEq

/-- `ChangeType` in the source. -/
inductive ChangeType where
  | new
  | updated
  | unchanged
  | deleted
  | ignored
deriving DecidableEq

/-- `FileChange` in the source. -/
structure FileChange where
  location : String
  change_type : ChangeType
  old_version : Option String
  new_version : Option String
deriving DecidableEq

/-- `ScanResult` in the source (the dry-run / reporting structure). -/
structure ScanResult where
  total_found : Nat
  new_files : List String
  updated_files : List String
  unchanged_files : List String
  deleted_files : List String
  ignored_files : List String
  changes : List FileChange
deriving DecidableEq

/-- The mutable state threaded through `create_or_update_treasure_map`:
the row dict, the hidden fingerprint dict, and the report. -/
structure EngineState where
  rows : List (String × Row)
  meta : List (String × Option String)
  result : ScanResult
deriving DecidableEq

/-- `d.get(k)` on an insertion-ordered dict. -/
def dictGet {α : Type} (k : String) : List (String × α) → Option α
  | [] => none
  | p :: ps => if p.1 = k then some p.2 else dictGet k ps

/-- Mutation of the value behind an existing key (leaves the dict unchanged
when the key is absent). -/
def dictUpdate {α : Type} (k : String) (v : α) (m : List (String × α)) : List (String × α) :=
  m.map (fun p => if p.1 = k then (k, v) else p)

/-- `d[k] = v`: update in place when the key is present, append otherwise. -/
def dictSet {α : Type} (m : List (String × α)) (k : String) (v : α) : List (String × α) :=
  if (dictGet k m).isSome then dictUpdate k v m else m ++ [(k, v)]

/-- `meta.get(loc)`: the hidden sheet stores `Optional[str]` values, and a
missing key and a stored `None` are indistinguishable to the engine. -/
def metaGet (m : List (String × Option String)) (loc : String) : Option String :=
  match dictGet loc m with
  | none => none
  | some v => v

/-- `str(loc).replace("\\", "/")`. -/
def toPosix (s : String) : String :=
  String.mk (s.toList.map (fun c => if c = '\\' then '/' else c))

/-- `_build_sharepoint_url(base, rel, abs)`; percent-encoding of the
relative path and `file://` URI construction are not modelled. -/
def build_sharepoint_url (base : Option String) (rel_location : String)
    (abs_path : String) : String :=
  match base with
  | some b =>
    String.mk ((b.toList.reverse.dropWhile (fun c => c = '/')).reverse) ++ "/" ++ rel_location
  | none => abs_path

/-- One iteration of the `for f in found` merge loop of
`create_or_update_treasure_map` (api.py lines 760-812). -/
def processFound (existing_rows : List (String × Row)) (sharepoint_base_url : Option String)
    (today : Nat) (st : EngineState) (f : FoundFile) : EngineState :=
  match dictGet f.rel_location existing_rows with
  | some _ =>
    match dictGet f.rel_location st.rows with
    | none => st
    -- unreachable when called by the engine: `updated_rows` starts as a copy of
    -- `existing_rows` and the merge loop never removes keys, so every key of
    -- `existing_rows` is present (Python would raise `KeyError` here)
    | some row =>
      if metaGet st.meta f.rel_location = f.sha256 then
        { rows := dictUpdate f.rel_location { row with lastSeen := today } st.rows,
          meta := st.meta,
          result := { st.result with
            unchanged_files := st.result.unchanged_files ++ [f.rel_location],
            changes := st.result.changes ++
              [{ location := f.rel_location, change_type := ChangeType.unchanged,
                 old_version := some (pyStr row.version),
                 new_version := some (pyStr row.version) }] } }
      else if hash_changed (metaGet st.meta f.rel_location) f.sha256 then
        { rows := dictUpdate f.rel_location
            { row with lastSeen := today, version := some (bump_version row.version) } st.rows,
          meta := dictSet st.meta f.rel_location f.sha256,
          result := { st.result with
            updated_files := st.result.updated_files ++ [f.rel_location],
            changes := st.result.changes ++
              [{ location := f.rel_location, change_type := ChangeType.updated,
                 old_version := some (pyStr row.version),
                 new_version := some (bump_version row.version) }] } }
      else if (metaGet st.meta f.rel_location).isNone && f.sha256.isSome then
        { rows := dictUpdate f.rel_location { row with lastSeen := today } st.rows,
          meta := dictSet st.meta f.rel_location f.sha256,
          result := { st.result with
            unchanged_files := st.result.unchanged_files ++ [f.rel_location],
            changes := st.result.changes ++
              [{ location := f.rel_location, change_type := ChangeType.unchanged,
                 old_version := some (pyStr row.version),
                 new_version := some (pyStr row.version) }] } }
      else
        { rows := dictUpdate f.rel_location { row with lastSeen := today } st.rows,
          meta := st.meta,
          result := { st.result with
            unchanged_files := st.result.unchanged_files ++ [f.rel_location],
            changes := st.result.changes ++
              [{ location := f.rel_location, change_type := ChangeType.unchanged,
                 old_version := some (pyStr row.version),
                 new_version := some (pyStr row.version) }] } }
  | none =>
    { rows := st.rows ++ [(f.rel_location,
        { fileName := f.filename, fileType := f.file_type, description := "",
          dateFound := today, lastSeen := today,
          linkTarget := build_sharepoint_url sharepoint_base_url f.rel_location f.abs_path,
          linkText := f.filename, version := some "1.0", location := f.rel_location })],
      meta := dictSet st.meta f.rel_location f.sha256,
      result := { st.result with
        new_files := st.result.new_files ++ [f.rel_location],
        changes := st.result.changes ++
          [{ location := f.rel_location, change_type := ChangeType.new,
             old_version := none, new_version := some "1.0" }] } }

/-- The `.treasureignore` cleanup pass (api.py lines 814-822): every record
whose (slash-normalised) location matches the rules is dropped from the row
and fingerprint dicts and reported as Ignored.  The source runs this pass
only when the rule list is non-empty. -/
def exclusionPass (ignore_rules : List IgnoreRule) (st : EngineState) : EngineState :=
  if ignore_rules.isEmpty then st
  else
    let ignoredLocs :=
      (st.rows.map Prod.fst).filter (fun loc => is_ignored (toPosix loc) ignore_rules)
    { rows := st.rows.filter (fun p => !(is_ignored (toPosix p.1) ignore_rules)),
      meta := st.meta.filter (fun p => !(ignoredLocs.contains p.1)),
      result := { st.result with
        ignored_files := st.result.ignored_files ++ ignoredLocs,
        changes := st.result.changes ++ ignoredLocs.map (fun loc =>
          { location := loc, change_type := ChangeType.ignored,
            old_version := none, new_version := none }) } }

/-- The `prune_missing` cleanup pass (api.py lines 824-832): when enabled,
every remaining record whose location was not discovered this pass is
dropped and reported as Deleted. -/
def prunePass (found : List FoundFile) (prune_missing : Bool) (st : EngineState) : EngineState :=
  if prune_missing then
    let found_locs := found.map FoundFile.rel_location
    let deletedLocs := (st.rows.map Prod.fst).filter (fun loc => !(found_locs.contains loc))
    { rows := st.rows.filter (fun p => found_locs.contains p.1),
      meta := st.meta.filter (fun p => !(deletedLocs.contains p.1)),
      result := { st.result with
        deleted_files := st.result.deleted_files ++ deletedLocs,
        changes := st.result.changes ++ deletedLocs.map (fun loc =>
          { location := loc, change_type := ChangeType.deleted,
            old_version := none, new_version := none }) } }
  else st

/-- The in-memory reconciliation core of `create_or_update_treasure_map`
(api.py lines 757-832): merge the discovered files into the persisted rows,
then run the exclusion pass, then the prune pass.  Discovery, workbook I/O
and serialisation happen outside this core. -/
def create_or_update_treasure_map (existing_rows : List (String × Row))
    (meta : List (String × Option String)) (found : List FoundFile)
    (ignore_rules : List IgnoreRule) (sharepoint_base_url : Option String)
    (prune_missing : Bool) (today : Nat) : EngineState :=
  prunePass found prune_missing (exclusionPass ignore_rules
    (found.foldl (processFound existing_rows sharepoint_base_url today)
      { rows := existing_rows, meta := meta,
        result := { total_found := found.length, new_files := [], updated_files := [],
                    unchanged_files := [], deleted_files := [], ignored_files := [],
                    changes := [] } }))

/-! ### Association-list (Python dict) lemmas -/

@[simp] theorem dictGet_nil {α : Type} {k : String} :
    dictGet k ([] : List (String × α)) = none := rfl

theorem dictGet_cons {α : Type} {k : String} {p : String × α} {ps : List (String × α)} :
    dictGet k (p :: ps) = if p.1 = k then some p.2 else dictGet k ps := rfl

theorem dictUpdate_cons {α : Type} {k : String} {v : α} {p : String × α}
    {ps : List (String × α)} :
    dictUpdate k v (p :: ps) = (if p.1 = k then (k, v) else p) :: dictUpdate k v ps := rfl

theorem dictGet_append_of_some {α : Type} {k : String} {m m' : List (String × α)} {v : α}
    (h : dictGet k m = some v) : dictGet k (m ++ m') = some v := by
  induction m with
  | nil => simp at h
  | cons p ps ih =>
    rw [dictGet_cons] at h
    by_cases hp : p.1 = k
    · rw [if_pos hp] at h
      rw [List.cons_append, dictGet_cons, if_pos hp]
      exact h
    · rw [if_neg hp] at h
      rw [List.cons_append, dictGet_cons, if_neg hp]
      exact ih h

theorem dictGet_append_of_none {α : Type} {k : String} {m m' : List (String × α)}
    (h : dictGet k m = none) : dictGet k (m ++ m') = dictGet k m' := by
  induction m with
  | nil => rfl
  | cons p ps ih =>
    rw [dictGet_cons] at h
    by_cases hp : p.1 = k
    · rw [if_pos hp] at h
      cases h
    · rw [if_neg hp] at h
      rw [List.cons_append, dictGet_cons, if_neg hp]
      exact ih h

theorem dictGet_eq_none_iff {α : Type} {k : String} {m : List (String × α)} :
    dictGet k m = none ↔ k ∉ m.map Prod.fst := by
  induction m with
  | nil => simp
  | cons p ps ih =>
    by_cases hp : p.1 = k
    · simp [dictGet_cons, hp]
    · simp [dictGet_cons, hp, ih, Ne.symm hp]

theorem dictGet_isSome_iff {α : Type} {k : String} {m : List (String × α)} :
    (dictGet k m).isSome = true ↔ k ∈ m.map Prod.fst := by
  rw [Option.isSome_iff_ne_none]
  constructor
  · intro h
    by_contra hk
    exact h (dictGet_eq_none_iff.mpr hk)
  · intro h hn
    exact (dictGet_eq_none_iff.mp hn) h

theorem dictGet_mem {α : Type} {k : String} {m : List (String × α)} {v : α}
    (h : dictGet k m = some v) : (k, v) ∈ m := by
  induction m with
  | nil => simp at h
  | cons p ps ih =>
    rw [dictGet_cons] at h
    by_cases hp : p.1 = k
    · rw [if_pos hp] at h
      injection h with h
      have he : (k, v) = p := by
        cases p
        simp_all
      rw [he]
      exact List.mem_cons_self _ _
    · rw [if_neg hp] at h
      exact List.mem_cons_of_mem _ (ih h)

theorem nodup_dictGet_mem {α : Type} {m : List (String × α)} {p : String × α}
    (hn : (m.map Prod.fst).Nodup) (h : p ∈ m) : dictGet p.1 m = some p.2 := by
  induction m with
  | nil => simp at h
  | cons q qs ih =>
    rcases List.mem_cons.mp h with rfl | h2
    · rw [dictGet_cons, if_pos rfl]
    · have hq : q.1 ≠ p.1 := by
        intro he
        have hm : p.1 ∈ qs.map Prod.fst := List.mem_map_of_mem Prod.fst h2
        rw [← he] at hm
        exact (List.nodup_cons.mp hn).1 hm
      rw [dictGet_cons, if_neg hq]
      exact ih (List.nodup_cons.mp hn).2 h2

theorem dictGet_update_self {α : Type} {k : String} {v : α} {m : List (String × α)}
    (h : (dictGet k m).isSome = true) : dictGet k (dictUpdate k v m) = some v := by
  induction m with
  | nil => simp at h
  | cons p ps ih =>
    rw [dictUpdate_cons]
    by_cases hp : p.1 = k
    · rw [if_pos hp, dictGet_cons]
      simp
    · rw [dictGet_cons, if_neg hp] at h
      rw [if_neg hp, dictGet_cons, if_neg hp]
      exact ih h

theorem dictGet_update_ne {α : Type} {k k' : String} {v : α} {m : List (String × α)}
    (h : k' ≠ k) : dictGet k' (dictUpdate k v m) = dictGet k' m := by
  induction m with
  | nil => rfl
  | cons p ps ih =>
    rw [dictUpdate_cons]
    by_cases hp : p.1 = k
    · have h2 : p.1 ≠ k' := by
        rw [hp]
        exact Ne.symm h
      rw [if_pos hp, dictGet_cons, dictGet_cons,
        if_neg (show ¬(((k, v) : String × α).1 = k') from Ne.symm h), if_neg h2, ih]
    · rw [if_neg hp, dictGet_cons, dictGet_cons]
      by_cases hp' : p.1 = k'
      · rw [if_pos hp', if_pos hp']
      · rw [if_neg hp', if_neg hp', ih]

theorem keys_dictUpdate {α : Type} {k : String} {v : α} {m : List (String × α)} :
    (dictUpdate k v m).map Prod.fst = m.map Prod.fst := by
  induction m with
  | nil => rfl
  | cons p ps ih =>
    rw [dictUpdate_cons, List.map_cons, List.map_cons, ih]
    by_cases hp : p.1 = k
    · rw [if_pos hp, hp]
    · rw [if_neg hp]

theorem dictUpdate_of_not_mem {α : Type} {k : String} {v : α} {m : List (String × α)}
    (h : k ∉ m.map Prod.fst) : dictUpdate k v m = m := by
  induction m with
  | nil => rfl
  | cons p ps ih =>
    simp only [List.map_cons, List.mem_cons, not_or] at h
    have hp : p.1 ≠ k := fun he => h.1 he.symm
    rw [dictUpdate_cons, if_neg hp, ih h.2]

theorem dictUpdate_self {α : Type} {k : String} {v : α} {m : List (String × α)}
    (hn : (m.map Prod.fst).Nodup) (h : dictGet k m = some v) : dictUpdate k v m = m := by
  induction m with
  | nil => simp at h
  | cons p ps ih =>
    rcases List.nodup_cons.mp hn with ⟨hp1, hp2⟩
    rw [dictGet_cons] at h
    by_cases hp : p.1 = k
    · rw [if_pos hp] at h
      injection h with h
      have hrest : dictUpdate k v ps = ps := by
        apply dictUpdate_of_not_mem
        rw [← hp]
        exact hp1
      rw [dictUpdate_cons, if_pos hp, hrest, ← hp, ← h]
    · rw [if_neg hp] at h
      rw [dictUpdate_cons, if_neg hp, ih hp2 h]

theorem mem_dictUpdate {α : Type} {k : String} {v : α} {m : List (String × α)}
    {p : String × α} (h : p ∈ dictUpdate k v m) : p ∈ m ∨ p = (k, v) := by
  rcases List.mem_map.mp h with ⟨q, hq, he⟩
  by_cases hqk : q.1 = k
  · right
    rw [← he, if_pos hqk]
  · left
    rw [← he, if_neg hqk]
    exact hq

theorem dictGet_filter {α : Type} (q : String → Bool) (k : String) (m : List (String × α)) :
    dictGet k (m.filter (fun p => q p.1)) = if q k then dictGet k m else none := by
  induction m with
  | nil => cases hq : q k <;> simp [hq]
  | cons p ps ih =>
    by_cases hp : p.1 = k
    · cases hq : q k
      · have hq1 : q p.1 = false := by rw [hp, hq]
        simp [List.filter_cons, hq1, ih, hq]
      · have hq1 : q p.1 = true := by rw [hp, hq]
        simp [List.filter_cons, hq1, dictGet_cons, hp, hq]
    · cases hq1 : q p.1 <;> simp [List.filter_cons, hq1, dictGet_cons, hp, ih]

theorem keys_filter {α : Type} (q : String → Bool) (m : List (String × α)) :
    (m.filter (fun p => q p.1)).map Prod.fst = (m.map Prod.fst).filter q := by
  induction m with
  | nil => rfl
  | cons p ps ih =>
    cases hq : q p.1 <;> simp [List.filter_cons, hq, ih]

theorem dictGet_dictSet_self {α : Type} {k : String} {v : α} {m : List (String × α)} :
    dictGet k (dictSet m k v) = some v := by
  unfold dictSet
  cases he : dictGet k m with
  | some w =>
    have hs : (dictGet k m).isSome = true := by
      rw [he]
      rfl
    simp only [Option.isSome_some, if_true]
    exact dictGet_update_self hs
  | none =>
    simp only [Option.isSome_none, Bool.false_eq_true, if_false]
    rw [dictGet_append_of_none he, dictGet_cons, if_pos rfl]

theorem dictGet_dictSet_ne {α : Type} {k k' : String} {v : α} {m : List (String × α)}
    (h : k' ≠ k) : dictGet k' (dictSet m k v) = dictGet k' m := by
  unfold dictSet
  by_cases hs : (dictGet k m).isSome = true
  · rw [if_pos hs]
    exact dictGet_update_ne h
  · rw [if_neg hs]
    cases he : dictGet k' m with
    | some w => rw [dictGet_append_of_some he]
    | none =>
      rw [dictGet_append_of_none he, dictGet_cons,
        if_neg (show ¬(((k, v) : String × α).1 = k') from Ne.symm h)]
      rfl

theorem metaGet_dictSet_self {k : String} {v : Option String}
    {m : List (String × Option String)} : metaGet (dictSet m k v) k = v := by
  rw [metaGet, dictGet_dictSet_self]

theorem metaGet_dictSet_ne {k k' : String} {v : Option String}
    {m : List (String × Option String)} (h : k' ≠ k) :
    metaGet (dictSet m k v) k' = metaGet m k' := by
  rw [metaGet, dictGet_dictSet_ne h, metaGet]

theorem metaGet_filter (q : String → Bool) (k : String) (m : List (String × Option String))
    (h : q k = true) : metaGet (m.filter (fun p => q p.1)) k = metaGet m k := by
  rw [metaGet, dictGet_filter, if_pos h, metaGet]

/-! ### Merge-loop lemmas -/

theorem processFound_shape (E : List (String × Row)) (sp : Option String) (t : Nat)
    (st : EngineState) (f : FoundFile) :
    ((∃ r, (processFound E sp t st f).rows = dictUpdate f.rel_location r st.rows) ∨
      (∃ r, (processFound E sp t st f).rows = st.rows ++ [(f.rel_location, r)]) ∨
      (processFound E sp t st f).rows = st.rows) ∧
    ((processFound E sp t st f).meta = st.meta ∨
      (processFound E sp t st f).meta = dictSet st.meta f.rel_location f.sha256) ∧
    ((processFound E sp t st f).result.updated_files = st.result.updated_files ∨
      (processFound E sp t st f).result.updated_files =
        st.result.updated_files ++ [f.rel_location]) ∧
    ((processFound E sp t st f).result.unchanged_files = st.result.unchanged_files ∨
      (processFound E sp t st f).result.unchanged_files =
        st.result.unchanged_files ++ [f.rel_location]) ∧
    ((processFound E sp t st f).result.new_files = st.result.new_files ∨
      (processFound E sp t st f).result.new_files = st.result.new_files ++ [f.rel_location]) ∧
    (processFound E sp t st f).result.deleted_files = st.result.deleted_files ∧
    (processFound E sp t st f).result.ignored_files = st.result.ignored_files := by
  unfold processFound
  cases dictGet f.rel_location E with
  | none =>
    exact ⟨Or.inr (Or.inl ⟨_, rfl⟩), Or.inr rfl, Or.inl rfl, Or.inl rfl, Or.inr rfl, rfl, rfl⟩
  | some _ =>
    cases dictGet f.rel_location st.rows with
    | none =>
      exact ⟨Or.inr (Or.inr rfl), Or.inl rfl, Or.inl rfl, Or.inl rfl, Or.inl rfl, rfl, rfl⟩
    | some row =>
      split_ifs with h1 h2 h3
      · exact ⟨Or.inl ⟨_, rfl⟩, Or.inl rfl, Or.inl rfl, Or.inr rfl, Or.inl rfl, rfl, rfl⟩
      · exact ⟨Or.inl ⟨_, rfl⟩, Or.inr rfl, Or.inr rfl, Or.inl rfl, Or.inl rfl, rfl, rfl⟩
      · exact ⟨Or.inl ⟨_, rfl⟩, Or.inr rfl, Or.inl rfl, Or.inr rfl, Or.inl rfl, rfl, rfl⟩
      · exact ⟨Or.inl ⟨_, rfl⟩, Or.inl rfl, Or.inl rfl, Or.inr rfl, Or.inl rfl, rfl, rfl⟩

theorem processFound_ne (E : List (String × Row)) (sp : Option String) (t : Nat)
    (st : EngineState) (f : FoundFile) (loc : String) (h : loc ≠ f.rel_location) :
    dictGet loc (processFound E sp t st f).rows = dictGet loc st.rows ∧
    metaGet (processFound E sp t st f).meta loc = metaGet st.meta loc ∧
    (loc ∈ (processFound E sp t st f).result.updated_files ↔
      loc ∈ st.result.updated_files) ∧
    (loc ∈ (processFound E sp t st f).result.unchanged_files ↔
      loc ∈ st.result.unchanged_files) ∧
    (loc ∈ (processFound E sp t st f).result.new_files ↔ loc ∈ st.result.new_files) ∧
    (processFound E sp t st f).result.deleted_files = st.result.deleted_files ∧
    (processFound E sp t st f).result.ignored_files = st.result.ignored_files := by
  obtain ⟨hr, hm, hu, hc, hn, hd, hi⟩ := processFound_shape E sp t st f
  refine ⟨?_, ?_, ?_, ?_, ?_, hd, hi⟩
  · rcases hr with ⟨r, hr⟩ | ⟨r, hr⟩ | hr
    · rw [hr, dictGet_update_ne h]
    · rw [hr]
      cases he : dictGet loc st.rows with
      | some w => rw [dictGet_append_of_some he]
      | none =>
        rw [dictGet_append_of_none he, dictGet_cons, if_neg (fun he2 => h he2.symm)]
        rfl
    · rw [hr]
  · rcases hm with hm | hm
    · rw [hm]
    · rw [hm, metaGet_dictSet_ne h]
  · rcases hu with hu | hu <;> simp [hu, h]
  · rcases hc with hc | hc <;> simp [hc, h]
  · rcases hn with hn | hn <;> simp [hn, h]

theorem processFound_isSome_mono (E : List (String × Row)) (sp : Option String) (t : Nat)
    (st : EngineState) (f : FoundFile) (k : String)
    (h : (dictGet k st.rows).isSome = true) :
    (dictGet k (processFound E sp t st f).rows).isSome = true := by
  obtain ⟨hr, -⟩ := processFound_shape E sp t st f
  rcases hr with ⟨r, hr⟩ | ⟨r, hr⟩ | hr
  · rw [hr, dictGet_isSome_iff, keys_dictUpdate, ← dictGet_isSome_iff]
    exact h
  · rw [hr]
    obtain ⟨v, hv⟩ := Option.isSome_iff_exists.mp h
    rw [dictGet_append_of_some hv]
    rfl
  · rw [hr]
    exact h

theorem processFound_keys (E : List (String × Row)) (sp : Option String) (t : Nat)
    (st : EngineState) (f : FoundFile) :
    (processFound E sp t st f).rows.map Prod.fst =
      st.rows.map Prod.fst ++
        (if (dictGet f.rel_location E).isNone then [f.rel_location] else []) := by
  unfold processFound
  cases dictGet f.rel_location E with
  | none => simp
  | some _ =>
    simp only [Option.isNone_some, Bool.false_eq_true, if_false, List.append_nil]
    cases dictGet f.rel_location st.rows with
    | none => rfl
    | some row => split_ifs <;> exact keys_dictUpdate

theorem foldl_ne (E : List (String × Row)) (sp : Option String) (t : Nat) (loc : String) :
    ∀ (G : List FoundFile) (st : EngineState), loc ∉ G.map FoundFile.rel_location →
    dictGet loc (G.foldl (processFound E sp t) st).rows = dictGet loc st.rows ∧
    metaGet (G.foldl (processFound E sp t) st).meta loc = metaGet st.meta loc ∧
    (loc ∈ (G.foldl (processFound E sp t) st).result.updated_files ↔
      loc ∈ st.result.updated_files) ∧
    (loc ∈ (G.foldl (processFound E sp t) st).result.unchanged_files ↔
      loc ∈ st.result.unchanged_files) ∧
    (loc ∈ (G.foldl (processFound E sp t) st).result.new_files ↔
      loc ∈ st.result.new_files) ∧
    (G.foldl (processFound E sp t) st).result.deleted_files = st.result.deleted_files ∧
    (G.foldl (processFound E sp t) st).result.ignored_files = st.result.ignored_files := by
  intro G
  induction G with
  | nil => exact fun st _ => ⟨rfl, rfl, Iff.rfl, Iff.rfl, Iff.rfl, rfl, rfl⟩
  | cons g G ih =>
    intro st hG
    simp only [List.map_cons, List.mem_cons, not_or] at hG
    obtain ⟨h1, h2, h3, h4, h5, h6, h7⟩ := processFound_ne E sp t st g loc hG.1
    obtain ⟨i1, i2, i3, i4, i5, i6, i7⟩ := ih (processFound E sp t st g) hG.2
    rw [List.foldl_cons] at *
    exact ⟨i1.trans h1, i2.trans h2, i3.trans h3, i4.trans h4, i5.trans h5,
      i6.trans h6, i7.trans h7⟩

theorem foldl_keys (E : List (String × Row)) (sp : Option String) (t : Nat) :
    ∀ (G : List FoundFile) (st : EngineState),
    (G.foldl (processFound E sp t) st).rows.map Prod.fst =
      st.rows.map Prod.fst ++
        (G.filter (fun g => (dictGet g.rel_location E).isNone)).map FoundFile.rel_location := by
  intro G
  induction G with
  | nil => simp
  | cons g G ih =>
    intro st
    rw [List.foldl_cons, ih, processFound_keys, List.append_assoc, List.filter_cons]
    cases he : (dictGet g.rel_location E).isNone <;> simp [he]

theorem foldl_isSome_mono (E : List (String × Row)) (sp : Option String) (t : Nat)
    (k : String) :
    ∀ (G : List FoundFile) (st : EngineState), (dictGet k st.rows).isSome = true →
    (dictGet k (G.foldl (processFound E sp t) st).rows).isSome = true := by
  intro G
  induction G with
  | nil => exact fun st h => h
  | cons g G ih =>
    intro st h
    rw [List.foldl_cons]
    exact ih _ (processFound_isSome_mono E sp t st g k h)

/-! ### Cleanup-pass lemmas -/

theorem is_ignored_nil (rel : String) : is_ignored rel [] = false := rfl

/-- The list of row keys the exclusion pass removes and reports. -/
def ignoredLocsOf (R : List IgnoreRule) (st : EngineState) : List String :=
  (st.rows.map Prod.fst).filter (fun loc => is_ignored (toPosix loc) R)

theorem exclusionPass_empty (R : List IgnoreRule) (st : EngineState)
    (hR : R.isEmpty = true) : exclusionPass R st = st := by
  unfold exclusionPass
  rw [hR]
  rfl

theorem exclusionPass_eq (R : List IgnoreRule) (st : EngineState) (hR : R.isEmpty = false) :
    exclusionPass R st =
      { rows := st.rows.filter (fun p => (fun s => !is_ignored (toPosix s) R) p.1),
        meta := st.meta.filter (fun p => (fun s => !((ignoredLocsOf R st).contains s)) p.1),
        result := { st.result with
          ignored_files := st.result.ignored_files ++ ignoredLocsOf R st,
          changes := st.result.changes ++ (ignoredLocsOf R st).map (fun loc =>
            { location := loc, change_type := ChangeType.ignored,
              old_version := none, new_version := none }) } } := by
  unfold exclusionPass
  rw [hR]
  rfl

theorem exclusionPass_not_ignored (R : List IgnoreRule) (st : EngineState) (loc : String)
    (hig : is_ignored (toPosix loc) R = false) :
    dictGet loc (exclusionPass R st).rows = dictGet loc st.rows ∧
    metaGet (exclusionPass R st).meta loc = metaGet st.meta loc ∧
    (exclusionPass R st).result.updated_files = st.result.updated_files ∧
    (exclusionPass R st).result.unchanged_files = st.result.unchanged_files ∧
    (exclusionPass R st).result.new_files = st.result.new_files ∧
    (exclusionPass R st).result.deleted_files = st.result.deleted_files ∧
    (loc ∈ (exclusionPass R st).result.ignored_files ↔ loc ∈ st.result.ignored_files) := by
  have hnotmem : loc ∉ ignoredLocsOf R st := by
    intro hmem
    rw [ignoredLocsOf, List.mem_filter, hig] at hmem
    simp at hmem
  cases hR : R.isEmpty
  · rw [exclusionPass_eq R st hR]
    refine ⟨?_, ?_, rfl, rfl, rfl, rfl, ?_⟩
    · exact (dictGet_filter (fun s => !is_ignored (toPosix s) R) loc st.rows).trans
        (if_pos (by rw [hig]; rfl))
    · refine metaGet_filter (fun s => !((ignoredLocsOf R st).contains s)) loc st.meta ?_
      simp only [Bool.not_eq_true']
      rw [← Bool.not_eq_true]
      intro hc
      exact hnotmem (List.elem_iff.mp hc)
    · simp only [List.mem_append]
      constructor
      · rintro (h | h)
        · exact h
        · exact absurd h hnotmem
      · exact Or.inl
  · rw [exclusionPass_empty R st hR]
    exact ⟨rfl, rfl, rfl, rfl, rfl, rfl, Iff.rfl⟩

theorem exclusionPass_ignored (R : List IgnoreRule) (st : EngineState) (loc : String)
    (hig : is_ignored (toPosix loc) R = true) :
    dictGet loc (exclusionPass R st).rows = none ∧
    (loc ∈ st.rows.map Prod.fst → loc ∈ (exclusionPass R st).result.ignored_files) := by
  have hR : R.isEmpty = false := by
    cases R with
    | nil => rw [is_ignored_nil] at hig; cases hig
    | cons a l => rfl
  rw [exclusionPass_eq R st hR]
  constructor
  · exact (dictGet_filter (fun s => !is_ignored (toPosix s) R) loc st.rows).trans
      (if_neg (by rw [hig]; simp))
  · intro hmem
    simp only [List.mem_append]
    right
    rw [ignoredLocsOf, List.mem_filter]
    exact ⟨hmem, hig⟩

theorem mem_exclusionPass_rows (R : List IgnoreRule) (st : EngineState) (p : String × Row)
    (h : p ∈ (exclusionPass R st).rows) : p ∈ st.rows := by
  cases hR : R.isEmpty
  · rw [exclusionPass_eq R st hR] at h
    exact (List.mem_filter.mp h).1
  · rw [exclusionPass_empty R st hR] at h
    exact h

theorem exclusionPass_rows_not_ignored (R : List IgnoreRule) (st : EngineState)
    (p : String × Row) (h : p ∈ (exclusionPass R st).rows) :
    is_ignored (toPosix p.1) R = false := by
  cases hR : R.isEmpty
  · rw [exclusionPass_eq R st hR] at h
    have := (List.mem_filter.mp h).2
    simpa using this
  · cases R with
    | nil => rfl
    | cons a l => simp at hR

theorem prunePass_false (F : List FoundFile) (st : EngineState) :
    prunePass F false st = st := rfl

/-- The list of row keys the prune pass removes and reports. -/
def deletedLocsOf (F : List FoundFile) (st : EngineState) : List String :=
  (st.rows.map Prod.fst).filter
    (fun loc => !((F.map FoundFile.rel_location).contains loc))

theorem prunePass_eq (F : List FoundFile) (st : EngineState) :
    prunePass F true st =
      { rows := st.rows.filter
          (fun p => (fun s => (F.map FoundFile.rel_location).contains s) p.1),
        meta := st.meta.filter (fun p => (fun s => !((deletedLocsOf F st).contains s)) p.1),
        result := { st.result with
          deleted_files := st.result.deleted_files ++ deletedLocsOf F st,
          changes := st.result.changes ++ (deletedLocsOf F st).map (fun loc =>
            { location := loc, change_type := ChangeType.deleted,
              old_version := none, new_version := none }) } } := rfl

theorem prunePass_found (F : List FoundFile) (st : EngineState) (loc : String)
    (hmem : loc ∈ F.map FoundFile.rel_location) :
    dictGet loc (prunePass F true st).rows = dictGet loc st.rows ∧
    metaGet (prunePass F true st).meta loc = metaGet st.meta loc ∧
    (prunePass F true st).result.updated_files = st.result.updated_files ∧
    (prunePass F true st).result.unchanged_files = st.result.unchanged_files ∧
    (prunePass F true st).result.new_files = st.result.new_files ∧
    (prunePass F true st).result.ignored_files = st.result.ignored_files ∧
    (loc ∈ (prunePass F true st).result.deleted_files ↔
      loc ∈ st.result.deleted_files) := by
  have hnotdel : loc ∉ deletedLocsOf F st := by
    intro h
    rw [deletedLocsOf, List.mem_filter] at h
    have := h.2
    rw [Bool.not_eq_true'] at this
    rw [← Bool.not_eq_true] at this
    exact this (List.elem_iff.mpr hmem)
  rw [prunePass_eq]
  refine ⟨?_, ?_, rfl, rfl, rfl, rfl, ?_⟩
  · exact (dictGet_filter (fun s => (F.map FoundFile.rel_location).contains s) loc st.rows).trans
      (if_pos (List.elem_iff.mpr hmem))
  · refine metaGet_filter (fun s => !((deletedLocsOf F st).contains s)) loc st.meta ?_
    simp only [Bool.not_eq_true']
    rw [← Bool.not_eq_true]
    intro hc
    exact hnotdel (List.elem_iff.mp hc)
  · simp only [List.mem_append]
    constructor
    · rintro (h | h)
      · exact h
      · exact absurd h hnotdel
    · exact Or.inl

theorem prunePass_missing (F : List FoundFile) (st : EngineState) (loc : String)
    (habs : loc ∉ F.map FoundFile.rel_location) :
    dictGet loc (prunePass F true st).rows = none ∧
    (loc ∈ st.rows.map Prod.fst → loc ∈ (prunePass F true st).result.deleted_files) := by
  have hc : (F.map FoundFile.rel_location).contains loc = false := by
    rw [← Bool.not_eq_true]
    intro h
    exact habs (List.elem_iff.mp h)
  rw [prunePass_eq]
  constructor
  · exact (dictGet_filter (fun s => (F.map FoundFile.rel_location).contains s) loc st.rows).trans
      (if_neg (by rw [hc]; simp))
  · intro hmem
    simp only [List.mem_append]
    right
    rw [deletedLocsOf, List.mem_filter]
    refine ⟨hmem, ?_⟩
    rw [hc]
    rfl

theorem mem_prunePass_rows (F : List FoundFile) (b : Bool) (st : EngineState)
    (p : String × Row) (h : p ∈ (prunePass F b st).rows) : p ∈ st.rows := by
  cases b
  · rw [prunePass_false] at h
    exact h
  · rw [prunePass_eq] at h
    exact (List.mem_filter.mp h).1

theorem prunePass_rows_found (F : List FoundFile) (st : EngineState)
    (p : String × Row) (h : p ∈ (prunePass F true st).rows) :
    p.1 ∈ F.map FoundFile.rel_location := by
  rw [prunePass_eq] at h
  exact List.elem_iff.mp (List.mem_filter.mp h).2

/-! ### The row written for a newly discovered file, and row-content shapes -/

/-- The row the engine creates for a location with no prior record. -/
def newRowOf (sp : Option String) (t : Nat) (f : FoundFile) : Row :=
  { fileName := f.filename, fileType := f.file_type, description := "",
    dateFound := t, lastSeen := t,
    linkTarget := build_sharepoint_url sp f.rel_location f.abs_path,
    linkText := f.filename, version := some "1.0", location := f.rel_location }

theorem processFound_rows_content (E : List (String × Row)) (sp : Option String) (t : Nat)
    (st : EngineState) (f : FoundFile) :
    (processFound E sp t st f).rows = st.rows ∨
    (∃ row, dictGet f.rel_location st.rows = some row ∧
      ((processFound E sp t st f).rows =
          dictUpdate f.rel_location { row with lastSeen := t } st.rows ∨
        (processFound E sp t st f).rows =
          dictUpdate f.rel_location
            { row with lastSeen := t, version := some (bump_version row.version) } st.rows)) ∨
    ((processFound E sp t st f).rows = st.rows ++ [(f.rel_location, newRowOf sp t f)] ∧
      dictGet f.rel_location E = none) := by
  unfold processFound
  cases hE : dictGet f.rel_location E with
  | none => exact Or.inr (Or.inr ⟨rfl, rfl⟩)
  | some _ =>
    cases hR : dictGet f.rel_location st.rows with
    | none => exact Or.inl rfl
    | some row =>
      split_ifs with h1 h2 h3
      · exact Or.inr (Or.inl ⟨row, rfl, Or.inl rfl⟩)
      · exact Or.inr (Or.inl ⟨row, rfl, Or.inr rfl⟩)
      · exact Or.inr (Or.inl ⟨row, rfl, Or.inl rfl⟩)
      · exact Or.inr (Or.inl ⟨row, rfl, Or.inl rfl⟩)

/-- The description-ownership invariant: a row's description is the prior
record's description when its key had a prior record, and the empty string
written at creation otherwise. -/
def descOK (E : List (String × Row)) (p : String × Row) : Prop :=
  p.2.description =
    (match dictGet p.1 E with
      | some r => r.description
      | none => "")

theorem descOK_of_eq {E : List (String × Row)} {p q : String × Row}
    (hk : p.1 = q.1) (hd : p.2.description = q.2.description)
    (h : descOK E q) : descOK E p := by
  unfold descOK at h ⊢
  rw [hd, hk]
  exact h

theorem processFound_descOK (E : List (String × Row)) (sp : Option String) (t : Nat)
    (st : EngineState) (f : FoundFile)
    (hall : ∀ p ∈ st.rows, descOK E p) :
    ∀ p ∈ (processFound E sp t st f).rows, descOK E p := by
  intro p hp
  rcases processFound_rows_content E sp t st f with h | ⟨row, hrow, h | h⟩ | ⟨h, hE⟩
  · rw [h] at hp
    exact hall p hp
  · rw [h] at hp
    rcases mem_dictUpdate hp with hmem | he
    · exact hall p hmem
    · have hd := hall (f.rel_location, row) (dictGet_mem hrow)
      rw [he]
      exact descOK_of_eq rfl rfl hd
  · rw [h] at hp
    rcases mem_dictUpdate hp with hmem | he
    · exact hall p hmem
    · have hd := hall (f.rel_location, row) (dictGet_mem hrow)
      rw [he]
      exact descOK_of_eq rfl rfl hd
  · rw [h] at hp
    rcases List.mem_append.mp hp with hmem | hnew
    · exact hall p hmem
    · rw [List.mem_singleton.mp hnew]
      unfold descOK
      rw [hE]
      rfl

/-- The date invariant used for the `dateFound <= lastSeen` property. -/
def dateOK (t : Nat) (p : String × Row) : Prop :=
  p.2.dateFound ≤ p.2.lastSeen ∧ p.2.dateFound ≤ t

theorem processFound_dateOK (E : List (String × Row)) (sp : Option String) (t : Nat)
    (st : EngineState) (f : FoundFile)
    (hall : ∀ p ∈ st.rows, dateOK t p) :
    ∀ p ∈ (processFound E sp t st f).rows, dateOK t p := by
  intro p hp
  rcases processFound_rows_content E sp t st f with h | ⟨row, hrow, h | h⟩ | ⟨h, hE⟩
  · rw [h] at hp
    exact hall p hp
  · rw [h] at hp
    rcases mem_dictUpdate hp with hmem | he
    · exact hall p hmem
    · have hd := hall (f.rel_location, row) (dictGet_mem hrow)
      rw [he]
      exact ⟨hd.2, hd.2⟩
  · rw [h] at hp
    rcases mem_dictUpdate hp with hmem | he
    · exact hall p hmem
    · have hd := hall (f.rel_location, row) (dictGet_mem hrow)
      rw [he]
      exact ⟨hd.2, hd.2⟩
  · rw [h] at hp
    rcases List.mem_append.mp hp with hmem | hnew
    · exact hall p hmem
    · rw [List.mem_singleton.mp hnew]
      exact ⟨le_refl t, le_refl t⟩

theorem foldl_rows_inv (E : List (String × Row)) (sp : Option String) (t : Nat)
    (P : String × Row → Prop)
    (hstep : ∀ st f, (∀ p ∈ st.rows, P p) → ∀ p ∈ (processFound E sp t st f).rows, P p) :
    ∀ (G : List FoundFile) (st : EngineState), (∀ p ∈ st.rows, P p) →
      ∀ p ∈ (G.foldl (processFound E sp t) st).rows, P p := by
  intro G
  induction G with
  | nil => exact fun st h => h
  | cons g G ih => exact fun st h => ih _ (hstep st g h)

/-! ### Branch-by-branch characterisation of one merge-loop step -/

theorem processFound_step_unchanged (E : List (String × Row)) (sp : Option String) (t : Nat)
    (st : EngineState) (f : FoundFile) (row : Row)
    (hE : (dictGet f.rel_location E).isSome = true)
    (hrow : dictGet f.rel_location st.rows = some row)
    (heq : metaGet st.meta f.rel_location = f.sha256) :
    (processFound E sp t st f).rows =
      dictUpdate f.rel_location { row with lastSeen := t } st.rows ∧
    (processFound E sp t st f).meta = st.meta ∧
    (processFound E sp t st f).result.unchanged_files =
      st.result.unchanged_files ++ [f.rel_location] ∧
    (processFound E sp t st f).result.updated_files = st.result.updated_files ∧
    (processFound E sp t st f).result.new_files = st.result.new_files := by
  obtain ⟨r, hr⟩ := Option.isSome_iff_exists.mp hE
  simp only [processFound, hr, hrow]
  rw [if_pos heq]
  exact ⟨rfl, rfl, rfl, rfl, rfl⟩

theorem processFound_step_updated (E : List (String × Row)) (sp : Option String) (t : Nat)
    (st : EngineState) (f : FoundFile) (row : Row) (h1 h2 : String)
    (hE : (dictGet f.rel_location E).isSome = true)
    (hrow : dictGet f.rel_location st.rows = some row)
    (hprev : metaGet st.meta f.rel_location = some h1)
    (hcur : f.sha256 = some h2) (hne : h1 ≠ h2) :
    (processFound E sp t st f).rows =
      dictUpdate f.rel_location
        { row with lastSeen := t, version := some (bump_version row.version) } st.rows ∧
    (processFound E sp t st f).meta = dictSet st.meta f.rel_location f.sha256 ∧
    (processFound E sp t st f).result.updated_files =
      st.result.updated_files ++ [f.rel_location] ∧
    (processFound E sp t st f).result.unchanged_files = st.result.unchanged_files ∧
    (processFound E sp t st f).result.new_files = st.result.new_files := by
  obtain ⟨r, hr⟩ := Option.isSome_iff_exists.mp hE
  have hne2 : ¬metaGet st.meta f.rel_location = f.sha256 := by
    rw [hprev, hcur]
    simp [hne]
  have hhc : hash_changed (metaGet st.meta f.rel_location) f.sha256 = true := by
    rw [hprev, hcur]
    exact bne_iff_ne.mpr hne
  simp only [processFound, hr, hrow]
  rw [if_neg hne2, if_pos hhc]
  exact ⟨rfl, rfl, rfl, rfl, rfl⟩

theorem processFound_step_fillin (E : List (String × Row)) (sp : Option String) (t : Nat)
    (st : EngineState) (f : FoundFile) (row : Row) (h2 : String)
    (hE : (dictGet f.rel_location E).isSome = true)
    (hrow : dictGet f.rel_location st.rows = some row)
    (hprev : metaGet st.meta f.rel_location = none)
    (hcur : f.sha256 = some h2) :
    (processFound E sp t st f).rows =
      dictUpdate f.rel_location { row with lastSeen := t } st.rows ∧
    (processFound E sp t st f).meta = dictSet st.meta f.rel_location f.sha256 ∧
    (processFound E sp t st f).result.unchanged_files =
      st.result.unchanged_files ++ [f.rel_location] ∧
    (processFound E sp t st f).result.updated_files = st.result.updated_files ∧
    (processFound E sp t st f).result.new_files = st.result.new_files := by
  obtain ⟨r, hr⟩ := Option.isSome_iff_exists.mp hE
  have hne2 : ¬metaGet st.meta f.rel_location = f.sha256 := by
    rw [hprev, hcur]
    simp
  have hhc : hash_changed (metaGet st.meta f.rel_location) f.sha256 = false := by
    rw [hprev, hcur]
    rfl
  have h3 : ((metaGet st.meta f.rel_location).isNone && f.sha256.isSome) = true := by
    rw [hprev, hcur]
    rfl
  simp only [processFound, hr, hrow]
  rw [if_neg hne2, if_neg (by rw [hhc]; simp), if_pos h3]
  exact ⟨rfl, rfl, rfl, rfl, rfl⟩

theorem processFound_step_unreadable (E : List (String × Row)) (sp : Option String) (t : Nat)
    (st : EngineState) (f : FoundFile) (row : Row) (h1 : String)
    (hE : (dictGet f.rel_location E).isSome = true)
    (hrow : dictGet f.rel_location st.rows = some row)
    (hprev : metaGet st.meta f.rel_location = some h1)
    (hcur : f.sha256 = none) :
    (processFound E sp t st f).rows =
      dictUpdate f.rel_location { row with lastSeen := t } st.rows ∧
    (processFound E sp t st f).meta = st.meta ∧
    (processFound E sp t st f).result.unchanged_files =
      st.result.unchanged_files ++ [f.rel_location] ∧
    (processFound E sp t st f).result.updated_files = st.result.updated_files ∧
    (processFound E sp t st f).result.new_files = st.result.new_files := by
  obtain ⟨r, hr⟩ := Option.isSome_iff_exists.mp hE
  have hne2 : ¬metaGet st.meta f.rel_location = f.sha256 := by
    rw [hprev, hcur]
    simp
  have hhc : hash_changed (metaGet st.meta f.rel_location) f.sha256 = false := by
    rw [hcur]
    rfl
  have h3 : ((metaGet st.meta f.rel_location).isNone && f.sha256.isSome) = false := by
    rw [hprev]
    rfl
  simp only [processFound, hr, hrow]
  rw [if_neg hne2, if_neg (by rw [hhc]; simp), if_neg (by rw [h3]; simp)]
  exact ⟨rfl, rfl, rfl, rfl, rfl⟩

theorem processFound_step_new (E : List (String × Row)) (sp : Option String) (t : Nat)
    (st : EngineState) (f : FoundFile)
    (hE : dictGet f.rel_location E = none) :
    (processFound E sp t st f).rows = st.rows ++ [(f.rel_location, newRowOf sp t f)] ∧
    (processFound E sp t st f).meta = dictSet st.meta f.rel_location f.sha256 ∧
    (processFound E sp t st f).result.new_files =
      st.result.new_files ++ [f.rel_location] ∧
    (processFound E sp t st f).result.unchanged_files = st.result.unchanged_files ∧
    (processFound E sp t st f).result.updated_files = st.result.updated_files := by
  unfold processFound
  rw [hE]
  exact ⟨rfl, rfl, rfl, rfl, rfl⟩

theorem processFound_step_keep (E : List (String × Row)) (sp : Option String) (t : Nat)
    (st : EngineState) (f : FoundFile) (row : Row)
    (hE : (dictGet f.rel_location E).isSome = true)
    (hrow : dictGet f.rel_location st.rows = some row)
    (hsha : f.sha256 = none ∨ metaGet st.meta f.rel_location = f.sha256) :
    (processFound E sp t st f).rows =
      dictUpdate f.rel_location { row with lastSeen := t } st.rows ∧
    (processFound E sp t st f).meta = st.meta ∧
    (processFound E sp t st f).result.unchanged_files =
      st.result.unchanged_files ++ [f.rel_location] ∧
    (processFound E sp t st f).result.updated_files = st.result.updated_files ∧
    (processFound E sp t st f).result.new_files = st.result.new_files := by
  rcases hsha with hnone | heq
  · cases hprev : metaGet st.meta f.rel_location with
    | none =>
      exact processFound_step_unchanged E sp t st f row hE hrow (by rw [hprev, hnone])
    | some h1 =>
      exact processFound_step_unreadable E sp t st f row h1 hE hrow hprev hnone
  · exact processFound_step_unchanged E sp t st f row hE hrow heq

/-! ### Whole-pass lemmas -/

theorem row_update_lastSeen_self (r : Row) (t : Nat) (h : r.lastSeen = t) :
    ({ r with lastSeen := t } : Row) = r := by
  cases h
  rfl

theorem nodup_middle_not_mem {γ : Type} {g : γ → String} {A B : List γ} {f : γ}
    (h : (((A ++ f :: B).map g)).Nodup) : g f ∉ A.map g ∧ g f ∉ B.map g := by
  rw [List.map_append, List.map_cons] at h
  constructor
  · intro hmem
    exact (List.disjoint_of_nodup_append h) hmem (List.mem_cons_self _ _)
  · intro hmem
    exact (List.nodup_cons.mp (h.of_append_right)).1 hmem

/-- Second-pass merge loop: when every discovered location already carries a
row whose `lastSeen` is `today` and a compatible fingerprint, every step is
the Unchanged branch and rewrites nothing. -/
theorem foldl_all_unchanged (E1 : List (String × Row)) (M1 : List (String × Option String))
    (sp : Option String) (t : Nat) (hkeys : (E1.map Prod.fst).Nodup) :
    ∀ (G : List FoundFile) (st : EngineState),
    st.rows = E1 → st.meta = M1 →
    (∀ g ∈ G, ∃ row, dictGet g.rel_location E1 = some row ∧ row.lastSeen = t ∧
      (g.sha256 = none ∨ metaGet M1 g.rel_location = g.sha256)) →
    (G.foldl (processFound E1 sp t) st).rows = E1 ∧
    (G.foldl (processFound E1 sp t) st).meta = M1 ∧
    (G.foldl (processFound E1 sp t) st).result.unchanged_files =
      st.result.unchanged_files ++ G.map FoundFile.rel_location ∧
    (G.foldl (processFound E1 sp t) st).result.updated_files = st.result.updated_files ∧
    (G.foldl (processFound E1 sp t) st).result.new_files = st.result.new_files ∧
    (G.foldl (processFound E1 sp t) st).result.deleted_files = st.result.deleted_files ∧
    (G.foldl (processFound E1 sp t) st).result.ignored_files = st.result.ignored_files := by
  intro G
  induction G with
  | nil =>
    intro st h1 h2 _
    exact ⟨h1, h2, by simp, rfl, rfl, rfl, rfl⟩
  | cons g G ih =>
    intro st h1 h2 hcond
    obtain ⟨row, hrow, hseen, hsha⟩ := hcond g (List.mem_cons_self _ _)
    have hE : (dictGet g.rel_location E1).isSome = true := by
      rw [hrow]
      rfl
    have hrow' : dictGet g.rel_location st.rows = some row := by
      rw [h1]
      exact hrow
    have hsha' : g.sha256 = none ∨ metaGet st.meta g.rel_location = g.sha256 := by
      rw [h2]
      exact hsha
    obtain ⟨s1, s2, s3, s4, s5⟩ := processFound_step_keep E1 sp t st g row hE hrow' hsha'
    have hroweq : ({ row with lastSeen := t } : Row) = row :=
      row_update_lastSeen_self row t hseen
    have hstrows : (processFound E1 sp t st g).rows = E1 := by
      rw [s1, hroweq, h1]
      exact dictUpdate_self hkeys hrow
    have hstmeta : (processFound E1 sp t st g).meta = M1 := by
      rw [s2, h2]
    obtain ⟨i1, i2, i3, i4, i5, i6, i7⟩ := ih (processFound E1 sp t st g) hstrows hstmeta
      (fun g' hg' => hcond g' (List.mem_cons_of_mem _ hg'))
    obtain ⟨-, -, -, -, -, hdel, hign⟩ := processFound_shape E1 sp t st g
    refine ⟨i1, i2, ?_, ?_, ?_, ?_, ?_⟩
    · rw [List.foldl_cons] at *
      rw [i3, s3, List.map_cons, List.append_assoc, List.singleton_append]
    · rw [List.foldl_cons] at *
      rw [i4, s4]
    · rw [List.foldl_cons] at *
      rw [i5, s5]
    · rw [List.foldl_cons] at *
      rw [i6, hdel]
    · rw [List.foldl_cons] at *
      rw [i7, hign]

theorem exclusionPass_keys (R : List IgnoreRule) (st : EngineState) :
    ((exclusionPass R st).rows.map Prod.fst).Sublist (st.rows.map Prod.fst) := by
  cases hR : R.isEmpty
  · rw [exclusionPass_eq R st hR]
    have hk := keys_filter (fun s => !is_ignored (toPosix s) R) st.rows
    rw [hk]
    exact List.filter_sublist _
  · rw [exclusionPass_empty R st hR]

theorem prunePass_keys (F : List FoundFile) (b : Bool) (st : EngineState) :
    ((prunePass F b st).rows.map Prod.fst).Sublist (st.rows.map Prod.fst) := by
  cases b
  · rw [prunePass_false]
  · rw [prunePass_eq]
    have hk := keys_filter (fun s => (F.map FoundFile.rel_location).contains s) st.rows
    rw [hk]
    exact List.filter_sublist _

theorem create_keys_nodup (E : List (String × Row)) (M : List (String × Option String))
    (F : List FoundFile) (R : List IgnoreRule) (sp : Option String) (b : Bool) (t : Nat)
    (hE : (E.map Prod.fst).Nodup) (hF : (F.map FoundFile.rel_location).Nodup) :
    (((create_or_update_treasure_map E M F R sp b t).rows).map Prod.fst).Nodup := by
  unfold create_or_update_treasure_map
  apply List.Nodup.sublist (prunePass_keys F b _)
  apply List.Nodup.sublist (exclusionPass_keys R _)
  rw [foldl_keys]
  apply List.Nodup.append
  · exact hE
  · exact List.Nodup.sublist
      (List.Sublist.map FoundFile.rel_location (List.filter_sublist F)) hF
  · intro a ha hb
    rcases List.mem_map.mp hb with ⟨g, hg, rfl⟩
    have hn := (List.mem_filter.mp hg).2
    rw [Option.isNone_iff_eq_none, dictGet_eq_none_iff] at hn
    exact hn ha

theorem create_rows_not_ignored (E : List (String × Row))
    (M : List (String × Option String)) (F : List FoundFile) (R : List IgnoreRule)
    (sp : Option String) (b : Bool) (t : Nat) (p : String × Row)
    (hp : p ∈ (create_or_update_treasure_map E M F R sp b t).rows) :
    is_ignored (toPosix p.1) R = false := by
  unfold create_or_update_treasure_map at hp
  exact exclusionPass_rows_not_ignored R _ p (mem_prunePass_rows F b _ p hp)

theorem create_rows_found (E : List (String × Row)) (M : List (String × Option String))
    (F : List FoundFile) (R : List IgnoreRule) (sp : Option String) (t : Nat)
    (p : String × Row)
    (hp : p ∈ (create_or_update_treasure_map E M F R sp true t).rows) :
    p.1 ∈ F.map FoundFile.rel_location := by
  unfold create_or_update_treasure_map at hp
  exact prunePass_rows_found F _ p hp

/-- After a full pass, every discovered, non-ignored location has a row whose
`lastSeen` is the pass date, with a fingerprint compatible with re-discovery. -/
theorem found_row_after_pass (E : List (String × Row)) (M : List (String × Option String))
    (F : List FoundFile) (R : List IgnoreRule) (sp : Option String) (b : Bool) (t : Nat)
    (f : FoundFile) (hf : f ∈ F)
    (hF : (F.map FoundFile.rel_location).Nodup)
    (hig : is_ignored (toPosix f.rel_location) R = false) :
    ∃ row,
      dictGet f.rel_location (create_or_update_treasure_map E M F R sp b t).rows = some row ∧
      row.lastSeen = t ∧
      (f.sha256 = none ∨
        metaGet (create_or_update_treasure_map E M F R sp b t).meta f.rel_location =
          f.sha256) := by
  obtain ⟨A, B, rfl⟩ := List.append_of_mem hf
  obtain ⟨hA, hB⟩ := nodup_middle_not_mem hF
  unfold create_or_update_treasure_map
  rw [List.foldl_append, List.foldl_cons]
  set st0 : EngineState :=
    { rows := E, meta := M,
      result := { total_found := (A ++ f :: B).length, new_files := [], updated_files := [],
                  unchanged_files := [], deleted_files := [], ignored_files := [],
                  changes := [] } } with hst0
  set stA := A.foldl (processFound E sp t) st0 with hstA
  obtain ⟨a1, a2, -⟩ := foldl_ne E sp t f.rel_location A st0 hA
  have hrowsA : dictGet f.rel_location stA.rows = dictGet f.rel_location E := a1
  have hmetaA : metaGet stA.meta f.rel_location = metaGet M f.rel_location := a2
  have hmain : ∃ row,
      dictGet f.rel_location (processFound E sp t stA f).rows = some row ∧
      row.lastSeen = t ∧
      (f.sha256 = none ∨
        metaGet (processFound E sp t stA f).meta f.rel_location = f.sha256) := by
    cases hE0 : dictGet f.rel_location E with
    | none =>
      obtain ⟨s1, s2, -⟩ := processFound_step_new E sp t stA f hE0
      refine ⟨newRowOf sp t f, ?_, rfl, ?_⟩
      · rw [s1, dictGet_append_of_none (hrowsA.trans hE0), dictGet_cons, if_pos rfl]
      · right
        rw [s2, metaGet_dictSet_self]
    | some r =>
      have hE1 : (dictGet f.rel_location E).isSome = true := by
        rw [hE0]
        rfl
      have hrowA : dictGet f.rel_location stA.rows = some r := hrowsA.trans hE0
      have hsomeA : (dictGet f.rel_location stA.rows).isSome = true := by
        rw [hrowA]
        rfl
      by_cases heq : metaGet stA.meta f.rel_location = f.sha256
      · obtain ⟨s1, s2, -⟩ := processFound_step_unchanged E sp t stA f r hE1 hrowA heq
        refine ⟨{ r with lastSeen := t }, ?_, rfl, ?_⟩
        · rw [s1]
          exact dictGet_update_self hsomeA
        · cases hsh : f.sha256 with
          | none => exact Or.inl rfl
          | some h2 =>
            right
            rw [s2, heq, hsh]
      · cases hsh : f.sha256 with
        | none =>
          cases hprev : metaGet stA.meta f.rel_location with
          | none =>
            exact absurd (by rw [hprev, hsh]) heq
          | some h1 =>
            obtain ⟨s1, s2, -⟩ :=
              processFound_step_unreadable E sp t stA f r h1 hE1 hrowA hprev hsh
            refine ⟨{ r with lastSeen := t }, ?_, rfl, Or.inl rfl⟩
            rw [s1]
            exact dictGet_update_self hsomeA
        | some h2 =>
          cases hprev : metaGet stA.meta f.rel_location with
          | none =>
            obtain ⟨s1, s2, -⟩ :=
              processFound_step_fillin E sp t stA f r h2 hE1 hrowA hprev hsh
            refine ⟨{ r with lastSeen := t }, ?_, rfl, Or.inr ?_⟩
            · rw [s1]
              exact dictGet_update_self hsomeA
            · rw [s2, metaGet_dictSet_self]
              exact hsh
          | some h1 =>
            have hne : h1 ≠ h2 := by
              intro he
              rw [hprev, hsh, he] at heq
              exact heq rfl
            obtain ⟨s1, s2, -⟩ :=
              processFound_step_updated E sp t stA f r h1 h2 hE1 hrowA hprev hsh hne
            refine ⟨{ r with lastSeen := t, version := some (bump_version r.version) },
              ?_, rfl, Or.inr ?_⟩
            · rw [s1]
              exact dictGet_update_self hsomeA
            · rw [s2, metaGet_dictSet_self]
              exact hsh
  obtain ⟨row, hrow, hseen, hsha⟩ := hmain
  obtain ⟨b1, b2, -⟩ := foldl_ne E sp t f.rel_location B (processFound E sp t stA f) hB
  obtain ⟨e1, e2, -⟩ :=
    exclusionPass_not_ignored R (B.foldl (processFound E sp t) (processFound E sp t stA f))
      f.rel_location hig
  have hmemF : f.rel_location ∈ (A ++ f :: B).map FoundFile.rel_location := by
    rw [List.map_append, List.map_cons]
    exact List.mem_append.mpr (Or.inr (List.mem_cons_self _ _))
  cases b with
  | false =>
    rw [prunePass_false]
    refine ⟨row, ?_, hseen, ?_⟩
    · rw [e1, b1, hrow]
    · rcases hsha with h | h
      · exact Or.inl h
      · right
        rw [e2, b2, h]
  | true =>
    obtain ⟨p1, p2, -⟩ :=
      prunePass_found (A ++ f :: B)
        (exclusionPass R (B.foldl (processFound E sp t) (processFound E sp t stA f)))
        f.rel_location hmemF
    refine ⟨row, ?_, hseen, ?_⟩
    · rw [p1, e1, b1, hrow]
    · rcases hsha with h | h
      · exact Or.inl h
      · right
        rw [p2, e2, b2, h]

theorem passes_at_found (F : List FoundFile) (R : List IgnoreRule) (b : Bool)
    (st : EngineState) (loc : String)
    (hmem : loc ∈ F.map FoundFile.rel_location)
    (hig : is_ignored (toPosix loc) R = false) :
    dictGet loc (prunePass F b (exclusionPass R st)).rows = dictGet loc st.rows ∧
    metaGet (prunePass F b (exclusionPass R st)).meta loc = metaGet st.meta loc ∧
    (loc ∈ (prunePass F b (exclusionPass R st)).result.updated_files ↔
      loc ∈ st.result.updated_files) ∧
    (loc ∈ (prunePass F b (exclusionPass R st)).result.unchanged_files ↔
      loc ∈ st.result.unchanged_files) ∧
    (loc ∈ (prunePass F b (exclusionPass R st)).result.new_files ↔
      loc ∈ st.result.new_files) := by
  obtain ⟨e1, e2, e3, e4, e5, -, -⟩ := exclusionPass_not_ignored R st loc hig
  cases b
  · rw [prunePass_false]
    exact ⟨e1, e2, by rw [e3], by rw [e4], by rw [e5]⟩
  · obtain ⟨p1, p2, p3, p4, p5, -, -⟩ := prunePass_found F (exclusionPass R st) loc hmem
    exact ⟨p1.trans e1, p2.trans e2, by rw [p3, e3], by rw [p4, e4], by rw [p5, e5]⟩

/-! ### The claims -/

/-- C1: for a prior record at a location that is rediscovered with both the
prior and the new fingerprint present and different, the pass bumps the
version's minor component by exactly 1 (major unchanged, on the parsed
version), stores the new fingerprint, sets `lastSeen` to the pass date,
leaves `dateFound` and `description` (and every other row field) unchanged,
and classifies the location as Updated. -/
theorem claim_C1 (E : List (String × Row)) (M : List (String × Option String))
    (F : List FoundFile) (R : List IgnoreRule) (sp : Option String) (b : Bool) (t : Nat)
    (f : FoundFile) (r : Row) (h1 h2 : String)
    (hF : (F.map FoundFile.rel_location).Nodup)
    (hf : f ∈ F)
    (hE : dictGet f.rel_location E = some r)
    (hprev : metaGet M f.rel_location = some h1)
    (hcur : f.sha256 = some h2)
    (hne : h1 ≠ h2)
    (hig : is_ignored (toPosix f.rel_location) R = false) :
    dictGet f.rel_location (create_or_update_treasure_map E M F R sp b t).rows =
      some { r with
              lastSeen := t,
              version := some (toString (parse_version r.version).1 ++ "." ++
                toString ((parse_version r.version).2 + 1)) } ∧
    metaGet (create_or_update_treasure_map E M F R sp b t).meta f.rel_location = some h2 ∧
    f.rel_location ∈ (create_or_update_treasure_map E M F R sp b t).result.updated_files := by
  obtain ⟨A, B, rfl⟩ := List.append_of_mem hf
  obtain ⟨hA, hB⟩ := nodup_middle_not_mem hF
  unfold create_or_update_treasure_map
  rw [List.foldl_append, List.foldl_cons]
  set st0 : EngineState :=
    { rows := E, meta := M,
      result := { total_found := (A ++ f :: B).length, new_files := [], updated_files := [],
                  unchanged_files := [], deleted_files := [], ignored_files := [],
                  changes := [] } } with hst0
  set stA := A.foldl (processFound E sp t) st0 with hstA
  obtain ⟨a1, a2, a3, a4, a5, -, -⟩ := foldl_ne E sp t f.rel_location A st0 hA
  have hrowA : dictGet f.rel_location stA.rows = some r := a1.trans hE
  have hmetaA : metaGet stA.meta f.rel_location = some h1 := a2.trans hprev
  have hsomeA : (dictGet f.rel_location stA.rows).isSome = true := by
    rw [hrowA]
    rfl
  have hE1 : (dictGet f.rel_location E).isSome = true := by
    rw [hE]
    rfl
  obtain ⟨s1, s2, s3, s4, s5⟩ :=
    processFound_step_updated E sp t stA f r h1 h2 hE1 hrowA hmetaA hcur hne
  have hrowS : dictGet f.rel_location (processFound E sp t stA f).rows =
      some { r with lastSeen := t, version := some (bump_version r.version) } := by
    rw [s1]
    exact dictGet_update_self hsomeA
  have hmetaS : metaGet (processFound E sp t stA f).meta f.rel_location = some h2 := by
    rw [s2, metaGet_dictSet_self]
    exact hcur
  have hupdS : f.rel_location ∈ (processFound E sp t stA f).result.updated_files := by
    rw [s3]
    exact List.mem_append.mpr (Or.inr (List.mem_cons_self _ _))
  obtain ⟨b1, b2, b3, b4, b5, -, -⟩ :=
    foldl_ne E sp t f.rel_location B (processFound E sp t stA f) hB
  have hmemF : f.rel_location ∈ (A ++ f :: B).map FoundFile.rel_location := by
    rw [List.map_append, List.map_cons]
    exact List.mem_append.mpr (Or.inr (List.mem_cons_self _ _))
  obtain ⟨q1, q2, q3, -, -⟩ :=
    passes_at_found (A ++ f :: B) R b (B.foldl (processFound E sp t) (processFound E sp t stA f))
      f.rel_location hmemF hig
  exact ⟨q1.trans (b1.trans hrowS), q2.trans (b2.trans hmetaS), q3.mpr (b3.mpr hupdS)⟩

/-- Witness for C1: prior record `a.pdf` at version "1.0" with fingerprint
"H1", rediscovered with fingerprint "H2" on day 2. -/
theorem claim_C1_witness :
    dictGet "a.pdf" (create_or_update_treasure_map
        [("a.pdf", ⟨"a.pdf", "PDF", "notes", 1, 1, "L", "a.pdf", some "1.0", "a.pdf"⟩)]
        [("a.pdf", some "H1")]
        [⟨"/r/a.pdf", "a.pdf", "a.pdf", "PDF", some "H2"⟩] [] none false 2).rows =
      some ⟨"a.pdf", "PDF", "notes", 1, 2, "L", "a.pdf", some "1.1", "a.pdf"⟩ ∧
    metaGet (create_or_update_treasure_map
        [("a.pdf", ⟨"a.pdf", "PDF", "notes", 1, 1, "L", "a.pdf", some "1.0", "a.pdf"⟩)]
        [("a.pdf", some "H1")]
        [⟨"/r/a.pdf", "a.pdf", "a.pdf", "PDF", some "H2"⟩] [] none false 2).meta "a.pdf" =
      some "H2" ∧
    "a.pdf" ∈ (create_or_update_treasure_map
        [("a.pdf", ⟨"a.pdf", "PDF", "notes", 1, 1, "L", "a.pdf", some "1.0", "a.pdf"⟩)]
        [("a.pdf", some "H1")]
        [⟨"/r/a.pdf", "a.pdf", "a.pdf", "PDF", some "H2"⟩] [] none false
        2).result.updated_files := by
  have h := claim_C1
    [("a.pdf", ⟨"a.pdf", "PDF", "notes", 1, 1, "L", "a.pdf", some "1.0", "a.pdf"⟩)]
    [("a.pdf", some "H1")]
    [⟨"/r/a.pdf", "a.pdf", "a.pdf", "PDF", some "H2"⟩]
    [] none false 2
    ⟨"/r/a.pdf", "a.pdf", "a.pdf", "PDF", some "H2"⟩
    ⟨"a.pdf", "PDF", "notes", 1, 1, "L", "a.pdf", some "1.0", "a.pdf"⟩
    "H1" "H2"
    (by decide) (by decide) (by decide) (by decide) (by decide) (by decide) (by decide)
  refine ⟨?_, h.2.1, h.2.2⟩
  rw [h.1]
  decide

/-- C2: when a prior record is rediscovered and at least one of the two
fingerprints is absent, the version is never bumped and the file is
classified Unchanged; a previously-absent fingerprint is filled in without
a bump, and when the current fingerprint is absent nothing but `lastSeen`
changes (the stored fingerprint included). -/
theorem claim_C2 (E : List (String × Row)) (M : List (String × Option String))
    (F : List FoundFile) (R : List IgnoreRule) (sp : Option String) (b : Bool) (t : Nat)
    (f : FoundFile) (r : Row)
    (hF : (F.map FoundFile.rel_location).Nodup)
    (hf : f ∈ F)
    (hE : dictGet f.rel_location E = some r)
    (hig : is_ignored (toPosix f.rel_location) R = false)
    (habs : metaGet M f.rel_location = none ∨ f.sha256 = none) :
    dictGet f.rel_location (create_or_update_treasure_map E M F R sp b t).rows =
      some { r with lastSeen := t } ∧
    f.rel_location ∈ (create_or_update_treasure_map E M F R sp b t).result.unchanged_files ∧
    f.rel_location ∉ (create_or_update_treasure_map E M F R sp b t).result.updated_files ∧
    (metaGet M f.rel_location = none →
      metaGet (create_or_update_treasure_map E M F R sp b t).meta f.rel_location =
        f.sha256) ∧
    (f.sha256 = none →
      metaGet (create_or_update_treasure_map E M F R sp b t).meta f.rel_location =
        metaGet M f.rel_location) := by
  obtain ⟨A, B, rfl⟩ := List.append_of_mem hf
  obtain ⟨hA, hB⟩ := nodup_middle_not_mem hF
  unfold create_or_update_treasure_map
  rw [List.foldl_append, List.foldl_cons]
  set st0 : EngineState :=
    { rows := E, meta := M,
      result := { total_found := (A ++ f :: B).length, new_files := [], updated_files := [],
                  unchanged_files := [], deleted_files := [], ignored_files := [],
                  changes := [] } } with hst0
  set stA := A.foldl (processFound E sp t) st0 with hstA
  obtain ⟨a1, a2, a3, a4, a5, -, -⟩ := foldl_ne E sp t f.rel_location A st0 hA
  have hrowA : dictGet f.rel_location stA.rows = some r := a1.trans hE
  have hmetaA : metaGet stA.meta f.rel_location = metaGet M f.rel_location := a2
  have hsomeA : (dictGet f.rel_location stA.rows).isSome = true := by
    rw [hrowA]
    rfl
  have hE1 : (dictGet f.rel_location E).isSome = true := by
    rw [hE]
    rfl
  have hnotupdA : f.rel_location ∉ stA.result.updated_files := fun hm =>
    List.not_mem_nil _ (a3.mp hm)
  have hmain :
      dictGet f.rel_location (processFound E sp t stA f).rows =
        some { r with lastSeen := t } ∧
      f.rel_location ∈ (processFound E sp t stA f).result.unchanged_files ∧
      (processFound E sp t stA f).result.updated_files = stA.result.updated_files ∧
      (metaGet M f.rel_location = none →
        metaGet (processFound E sp t stA f).meta f.rel_location = f.sha256) ∧
      (f.sha256 = none →
        metaGet (processFound E sp t stA f).meta f.rel_location =
          metaGet M f.rel_location) := by
    cases hprev : metaGet M f.rel_location with
    | none =>
      cases hsh : f.sha256 with
      | none =>
        obtain ⟨s1, s2, s3, s4, s5⟩ := processFound_step_unchanged E sp t stA f r hE1 hrowA
          (by rw [hmetaA, hprev, hsh])
        refine ⟨?_, ?_, s4, ?_, ?_⟩
        · rw [s1]
          exact dictGet_update_self hsomeA
        · rw [s3]
          exact List.mem_append.mpr (Or.inr (List.mem_cons_self _ _))
        · intro _
          rw [s2, hmetaA, hprev]
        · intro _
          rw [s2, hmetaA, hprev]
      | some h2 =>
        obtain ⟨s1, s2, s3, s4, s5⟩ := processFound_step_fillin E sp t stA f r h2 hE1 hrowA
          (by rw [hmetaA, hprev]) hsh
        refine ⟨?_, ?_, s4, ?_, ?_⟩
        · rw [s1]
          exact dictGet_update_self hsomeA
        · rw [s3]
          exact List.mem_append.mpr (Or.inr (List.mem_cons_self _ _))
        · intro _
          rw [s2, metaGet_dictSet_self]
          exact hsh
        · intro hn
          exact Option.noConfusion hn
    | some h1 =>
      cases hsh : f.sha256 with
      | none =>
        obtain ⟨s1, s2, s3, s4, s5⟩ := processFound_step_unreadable E sp t stA f r h1 hE1
          hrowA (by rw [hmetaA, hprev]) hsh
        refine ⟨?_, ?_, s4, ?_, ?_⟩
        · rw [s1]
          exact dictGet_update_self hsomeA
        · rw [s3]
          exact List.mem_append.mpr (Or.inr (List.mem_cons_self _ _))
        · intro hn
          exact Option.noConfusion hn
        · intro _
          rw [s2, hmetaA]
          exact hprev
      | some h2 =>
        rcases habs with hn | hn
        · rw [hn] at hprev
          exact Option.noConfusion hprev
        · rw [hn] at hsh
          exact Option.noConfusion hsh
  obtain ⟨m1, m2, m3, m4, m5⟩ := hmain
  obtain ⟨b1, b2, b3, b4, b5, -, -⟩ :=
    foldl_ne E sp t f.rel_location B (processFound E sp t stA f) hB
  have hmemF : f.rel_location ∈ (A ++ f :: B).map FoundFile.rel_location := by
    rw [List.map_append, List.map_cons]
    exact List.mem_append.mpr (Or.inr (List.mem_cons_self _ _))
  obtain ⟨q1, q2, q3, q4, -⟩ :=
    passes_at_found (A ++ f :: B) R b (B.foldl (processFound E sp t) (processFound E sp t stA f))
      f.rel_location hmemF hig
  refine ⟨q1.trans (b1.trans m1), q4.mpr (b4.mpr m2), ?_, ?_, ?_⟩
  · intro hm
    have := b3.mp (q3.mp hm)
    rw [m3] at this
    exact hnotupdA this
  · intro hn
    rw [q2, b2]
    exact m4 hn
  · intro hn
    rw [q2, b2]
    exact m5 hn

/-- Witness for C2: prior fingerprint absent, current present — fingerprint
recorded, version kept, classified Unchanged. -/
theorem claim_C2_witness :
    dictGet "a.pdf" (create_or_update_treasure_map
        [("a.pdf", ⟨"a.pdf", "PDF", "notes", 1, 1, "L", "a.pdf", some "1.0", "a.pdf"⟩)]
        []
        [⟨"/r/a.pdf", "a.pdf", "a.pdf", "PDF", some "H2"⟩] [] none false 2).rows =
      some ⟨"a.pdf", "PDF", "notes", 1, 2, "L", "a.pdf", some "1.0", "a.pdf"⟩ ∧
    "a.pdf" ∈ (create_or_update_treasure_map
        [("a.pdf", ⟨"a.pdf", "PDF", "notes", 1, 1, "L", "a.pdf", some "1.0", "a.pdf"⟩)]
        []
        [⟨"/r/a.pdf", "a.pdf", "a.pdf", "PDF", some "H2"⟩] [] none false
        2).result.unchanged_files ∧
    metaGet (create_or_update_treasure_map
        [("a.pdf", ⟨"a.pdf", "PDF", "notes", 1, 1, "L", "a.pdf", some "1.0", "a.pdf"⟩)]
        []
        [⟨"/r/a.pdf", "a.pdf", "a.pdf", "PDF", some "H2"⟩] [] none false 2).meta "a.pdf" =
      some "H2" := by
  have h := claim_C2
    [("a.pdf", ⟨"a.pdf", "PDF", "notes", 1, 1, "L", "a.pdf", some "1.0", "a.pdf"⟩)]
    []
    [⟨"/r/a.pdf", "a.pdf", "a.pdf", "PDF", some "H2"⟩]
    [] none false 2
    ⟨"/r/a.pdf", "a.pdf", "a.pdf", "PDF", some "H2"⟩
    ⟨"a.pdf", "PDF", "notes", 1, 1, "L", "a.pdf", some "1.0", "a.pdf"⟩
    (by decide) (by decide) (by decide) (by decide) (Or.inl (by decide))
  exact ⟨h.1.trans (by decide), h.2.1, h.2.2.2.1 (by decide)⟩

/-- C5: a prior record whose location is not discovered and not ignored is
removed and classified Deleted when `pruneMissing` is true, and retained
with every field exactly as it was (and not classified Deleted) when
`pruneMissing` is false. -/
theorem claim_C5 (E : List (String × Row)) (M : List (String × Option String))
    (F : List FoundFile) (R : List IgnoreRule) (sp : Option String) (t : Nat)
    (loc : String) (r : Row)
    (hE : dictGet loc E = some r)
    (habs : loc ∉ F.map FoundFile.rel_location)
    (hig : is_ignored (toPosix loc) R = false) :
    dictGet loc (create_or_update_treasure_map E M F R sp true t).rows = none ∧
    loc ∈ (create_or_update_treasure_map E M F R sp true t).result.deleted_files ∧
    dictGet loc (create_or_update_treasure_map E M F R sp false t).rows = some r ∧
    (create_or_update_treasure_map E M F R sp false t).result.deleted_files = [] := by
  unfold create_or_update_treasure_map
  set st0 : EngineState :=
    { rows := E, meta := M,
      result := { total_found := F.length, new_files := [], updated_files := [],
                  unchanged_files := [], deleted_files := [], ignored_files := [],
                  changes := [] } } with hst0
  obtain ⟨a1, a2, a3, a4, a5, a6, a7⟩ := foldl_ne E sp t loc F st0 habs
  have hrowM : dictGet loc (F.foldl (processFound E sp t) st0).rows = some r := a1.trans hE
  obtain ⟨e1, e2, e3, e4, e5, e6, e7⟩ :=
    exclusionPass_not_ignored R (F.foldl (processFound E sp t) st0) loc hig
  have hrowE : dictGet loc (exclusionPass R (F.foldl (processFound E sp t) st0)).rows =
      some r := e1.trans hrowM
  have hkeyE : loc ∈ (exclusionPass R (F.foldl (processFound E sp t) st0)).rows.map
      Prod.fst := by
    rw [← dictGet_isSome_iff, hrowE]
    rfl
  obtain ⟨p1, p2⟩ :=
    prunePass_missing F (exclusionPass R (F.foldl (processFound E sp t) st0)) loc habs
  refine ⟨p1, p2 hkeyE, ?_, ?_⟩
  · rw [prunePass_false]
    exact hrowE
  · rw [prunePass_false, e6, a6]

/-- Witness for C5 on a concrete prior record missing from discovery. -/
theorem claim_C5_witness :
    dictGet "b.docx" (create_or_update_treasure_map
        [("b.docx", ⟨"b.docx", "Word", "", 1, 1, "L", "b.docx", some "1.0", "b.docx"⟩)]
        [] [] [] none true 2).rows = none ∧
    "b.docx" ∈ (create_or_update_treasure_map
        [("b.docx", ⟨"b.docx", "Word", "", 1, 1, "L", "b.docx", some "1.0", "b.docx"⟩)]
        [] [] [] none true 2).result.deleted_files ∧
    dictGet "b.docx" (create_or_update_treasure_map
        [("b.docx", ⟨"b.docx", "Word", "", 1, 1, "L", "b.docx", some "1.0", "b.docx"⟩)]
        [] [] [] none false 2).rows =
      some ⟨"b.docx", "Word", "", 1, 1, "L", "b.docx", some "1.0", "b.docx"⟩ ∧
    (create_or_update_treasure_map
        [("b.docx", ⟨"b.docx", "Word", "", 1, 1, "L", "b.docx", some "1.0", "b.docx"⟩)]
        [] [] [] none false 2).result.deleted_files = [] :=
  claim_C5
    [("b.docx", ⟨"b.docx", "Word", "", 1, 1, "L", "b.docx", some "1.0", "b.docx"⟩)]
    [] [] [] none 2 "b.docx"
    ⟨"b.docx", "Word", "", 1, 1, "L", "b.docx", some "1.0", "b.docx"⟩
    (by decide) (by decide) (by decide)

theorem foldl_ignored_deleted (E : List (String × Row)) (sp : Option String) (t : Nat) :
    ∀ (G : List FoundFile) (st : EngineState),
    (G.foldl (processFound E sp t) st).result.ignored_files = st.result.ignored_files ∧
    (G.foldl (processFound E sp t) st).result.deleted_files = st.result.deleted_files := by
  intro G
  induction G with
  | nil => exact fun st => ⟨rfl, rfl⟩
  | cons g G ih =>
    intro st
    obtain ⟨-, -, -, -, -, hd, hi⟩ := processFound_shape E sp t st g
    exact ⟨(ih _).1.trans hi, (ih _).2.trans hd⟩

theorem prunePass_none (F : List FoundFile) (b : Bool) (st : EngineState) (loc : String)
    (h : dictGet loc st.rows = none) :
    dictGet loc (prunePass F b st).rows = none := by
  cases b
  · rw [prunePass_false]
    exact h
  · rw [prunePass_eq]
    refine (dictGet_filter (fun s => (F.map FoundFile.rel_location).contains s) loc
      st.rows).trans ?_
    rw [h]
    split <;> rfl

theorem prunePass_ignored_files (F : List FoundFile) (b : Bool) (st : EngineState) :
    (prunePass F b st).result.ignored_files = st.result.ignored_files := by
  cases b <;> rfl

theorem exclusionPass_deleted_files (R : List IgnoreRule) (st : EngineState) :
    (exclusionPass R st).result.deleted_files = st.result.deleted_files := by
  cases hR : R.isEmpty
  · rw [exclusionPass_eq R st hR]
  · rw [exclusionPass_empty R st hR]

theorem exclusionPass_mem_ignored (R : List IgnoreRule) (st : EngineState) (loc : String)
    (h : loc ∈ (exclusionPass R st).result.ignored_files) :
    loc ∈ st.result.ignored_files ∨ is_ignored (toPosix loc) R = true := by
  cases hR : R.isEmpty
  · rw [exclusionPass_eq R st hR] at h
    rcases List.mem_append.mp h with h | h
    · exact Or.inl h
    · exact Or.inr (List.mem_filter.mp h).2
  · rw [exclusionPass_empty R st hR] at h
    exact Or.inl h

theorem prunePass_mem_deleted (F : List FoundFile) (b : Bool) (st : EngineState)
    (loc : String) (h : loc ∈ (prunePass F b st).result.deleted_files) :
    loc ∈ st.result.deleted_files ∨ loc ∈ st.rows.map Prod.fst := by
  cases b
  · rw [prunePass_false] at h
    exact Or.inl h
  · rw [prunePass_eq] at h
    rcases List.mem_append.mp h with h | h
    · exact Or.inl h
    · exact Or.inr (List.mem_filter.mp h).1

/-- C7: the reconciliation engine never writes the description of a
pre-existing record; the only description write is the empty string when a
New record is created. -/
theorem claim_C7 (E : List (String × Row)) (M : List (String × Option String))
    (F : List FoundFile) (R : List IgnoreRule) (sp : Option String) (b : Bool) (t : Nat)
    (loc : String) (r' : Row)
    (hE : (E.map Prod.fst).Nodup)
    (h : dictGet loc (create_or_update_treasure_map E M F R sp b t).rows = some r') :
    (∀ r, dictGet loc E = some r → r'.description = r.description) ∧
    (dictGet loc E = none → r'.description = "") := by
  have hinv : ∀ p ∈ (create_or_update_treasure_map E M F R sp b t).rows, descOK E p := by
    intro p hp
    unfold create_or_update_treasure_map at hp
    have hp2 := mem_exclusionPass_rows R _ p (mem_prunePass_rows F b _ p hp)
    refine foldl_rows_inv E sp t (descOK E) (processFound_descOK E sp t) F
      { rows := E, meta := M,
        result := { total_found := F.length, new_files := [], updated_files := [],
                    unchanged_files := [], deleted_files := [], ignored_files := [],
                    changes := [] } } ?_ p hp2
    intro q hq
    unfold descOK
    rw [nodup_dictGet_mem hE hq]
  have hd : r'.description =
      (match dictGet loc E with
        | some r => r.description
        | none => "") := hinv (loc, r') (dictGet_mem h)
  constructor
  · intro r hr
    rw [hr] at hd
    exact hd
  · intro hr
    rw [hr] at hd
    exact hd

/-- Witness for C7 on a pass that updates one prior record and creates one
new record. -/
theorem claim_C7_witness :
    ((⟨"a.pdf", "PDF", "user notes", 1, 2, "L", "a.pdf", some "1.1", "a.pdf"⟩ :
        Row).description = "user notes") ∧
    ((⟨"b.pdf", "PDF", "", 2, 2, "Lb", "b.pdf", some "1.0", "b.pdf"⟩ :
        Row).description = "") := by
  have h1 := claim_C7
    [("a.pdf", ⟨"a.pdf", "PDF", "user notes", 1, 1, "L", "a.pdf", some "1.0", "a.pdf"⟩)]
    [("a.pdf", some "H1")]
    [⟨"/r/a.pdf", "a.pdf", "a.pdf", "PDF", some "H2"⟩,
     ⟨"/r/b.pdf", "b.pdf", "b.pdf", "PDF", some "K"⟩]
    [] none false 2 "a.pdf"
    ⟨"a.pdf", "PDF", "user notes", 1, 2, "L", "a.pdf", some "1.1", "a.pdf"⟩
    (by decide) (by decide)
  have h2 := claim_C7
    [("a.pdf", ⟨"a.pdf", "PDF", "user notes", 1, 1, "L", "a.pdf", some "1.0", "a.pdf"⟩)]
    [("a.pdf", some "H1")]
    [⟨"/r/a.pdf", "a.pdf", "a.pdf", "PDF", some "H2"⟩,
     ⟨"/r/b.pdf", "b.pdf", "b.pdf", "PDF", some "K"⟩]
    [] none false 2 "b.pdf"
    ⟨"b.pdf", "PDF", "", 2, 2, "/r/b.pdf", "b.pdf", some "1.0", "b.pdf"⟩
    (by decide) (by decide)
  exact ⟨h1.1 ⟨"a.pdf", "PDF", "user notes", 1, 1, "L", "a.pdf", some "1.0", "a.pdf"⟩
    (by decide), h2.2 (by decide)⟩

/-- C9 as stated (for arbitrary prior states) is false: a rediscovered
record whose persisted `dateFound` lies after the pass date gets
`lastSeen = asOf < dateFound`. -/
theorem claim_C9_counterexample :
    ¬(∀ (E : List (String × Row)) (M : List (String × Option String))
        (F : List FoundFile) (R : List IgnoreRule) (sp : Option String) (b : Bool)
        (t : Nat),
      ∀ p ∈ (create_or_update_treasure_map E M F R sp b t).rows,
        p.2.dateFound ≤ p.2.lastSeen) := by
  intro hall
  have hm := hall [("a.pdf", ⟨"a.pdf", "PDF", "", 5, 5, "L", "a.pdf", some "1.0", "a.pdf"⟩)]
    [] [⟨"/r/a.pdf", "a.pdf", "a.pdf", "PDF", none⟩] [] none false 3
    ("a.pdf", ⟨"a.pdf", "PDF", "", 5, 3, "L", "a.pdf", some "1.0", "a.pdf"⟩) (by decide)
  exact absurd hm (by decide)

/-- C9 (amended): provided every prior record satisfies
`dateFound ≤ lastSeen` and `dateFound ≤ asOf`, every record after the pass
satisfies `dateFound ≤ lastSeen`. -/
theorem claim_C9_amended (E : List (String × Row)) (M : List (String × Option String))
    (F : List FoundFile) (R : List IgnoreRule) (sp : Option String) (b : Bool) (t : Nat)
    (hprior : ∀ p ∈ E, p.2.dateFound ≤ p.2.lastSeen ∧ p.2.dateFound ≤ t) :
    ∀ p ∈ (create_or_update_treasure_map E M F R sp b t).rows,
      p.2.dateFound ≤ p.2.lastSeen := by
  intro p hp
  unfold create_or_update_treasure_map at hp
  have hp2 := mem_exclusionPass_rows R _ p (mem_prunePass_rows F b _ p hp)
  exact (foldl_rows_inv E sp t (dateOK t) (processFound_dateOK E sp t) F
    { rows := E, meta := M,
      result := { total_found := F.length, new_files := [], updated_files := [],
                  unchanged_files := [], deleted_files := [], ignored_files := [],
                  changes := [] } } hprior p hp2).1

/-- Witness for the amended C9 on a concrete mixed pass. -/
theorem claim_C9_witness :
    ((create_or_update_treasure_map
        [("a.pdf", ⟨"a.pdf", "PDF", "", 1, 1, "L", "a.pdf", some "1.0", "a.pdf"⟩)]
        [("a.pdf", some "H1")]
        [⟨"/r/a.pdf", "a.pdf", "a.pdf", "PDF", some "H2"⟩,
         ⟨"/r/b.pdf", "b.pdf", "b.pdf", "PDF", some "K"⟩] [] none false 2).rows.all
      (fun p => decide (p.2.dateFound ≤ p.2.lastSeen))) = true := by
  rw [List.all_eq_true]
  intro p hp
  exact decide_eq_true (claim_C9_amended
    [("a.pdf", ⟨"a.pdf", "PDF", "", 1, 1, "L", "a.pdf", some "1.0", "a.pdf"⟩)]
    [("a.pdf", some "H1")]
    [⟨"/r/a.pdf", "a.pdf", "a.pdf", "PDF", some "H2"⟩,
     ⟨"/r/b.pdf", "b.pdf", "b.pdf", "PDF", some "K"⟩] [] none false 2
    (by decide) p hp)

/-- C4: every record whose (slash-normalised) location matches the exclusion
rules is removed from the record set and classified Ignored, for both values
of `pruneMissing` and whether the record pre-existed or was just created;
and no location is classified both Ignored and Deleted. -/
theorem claim_C4 (E : List (String × Row)) (M : List (String × Option String))
    (F : List FoundFile) (R : List IgnoreRule) (sp : Option String) (b : Bool) (t : Nat) :
    (∀ loc, is_ignored (toPosix loc) R = true →
      dictGet loc (create_or_update_treasure_map E M F R sp b t).rows = none ∧
      ((dictGet loc E).isSome = true ∨ loc ∈ F.map FoundFile.rel_location →
        loc ∈ (create_or_update_treasure_map E M F R sp b t).result.ignored_files)) ∧
    (∀ loc, loc ∈ (create_or_update_treasure_map E M F R sp b t).result.ignored_files →
      loc ∉ (create_or_update_treasure_map E M F R sp b t).result.deleted_files) := by
  unfold create_or_update_treasure_map
  set st0 : EngineState :=
    { rows := E, meta := M,
      result := { total_found := F.length, new_files := [], updated_files := [],
                  unchanged_files := [], deleted_files := [], ignored_files := [],
                  changes := [] } } with hst0
  set m1 := F.foldl (processFound E sp t) st0 with hm1
  constructor
  · intro loc hig
    obtain ⟨x1, x2⟩ := exclusionPass_ignored R m1 loc hig
    constructor
    · exact prunePass_none F b (exclusionPass R m1) loc x1
    · intro hpre
      have hkey : loc ∈ m1.rows.map Prod.fst := by
        rw [hm1, foldl_keys]
        rcases hpre with hsome | hmem
        · exact List.mem_append.mpr (Or.inl (dictGet_isSome_iff.mp hsome))
        · cases hEl : dictGet loc E with
          | some w =>
            refine List.mem_append.mpr (Or.inl (dictGet_isSome_iff.mp ?_))
            rw [hEl]
            rfl
          | none =>
            rcases List.mem_map.mp hmem with ⟨g, hg, rfl⟩
            refine List.mem_append.mpr (Or.inr ?_)
            refine List.mem_map.mpr ⟨g, List.mem_filter.mpr ⟨hg, ?_⟩, rfl⟩
            rw [hEl]
            rfl
      rw [prunePass_ignored_files]
      exact x2 hkey
  · intro loc hmemI hmemD
    rw [prunePass_ignored_files] at hmemI
    rcases exclusionPass_mem_ignored R m1 loc hmemI with hbase | hig
    · rw [hm1] at hbase
      rw [(foldl_ignored_deleted E sp t F st0).1] at hbase
      exact List.not_mem_nil loc hbase
    · obtain ⟨x1, -⟩ := exclusionPass_ignored R m1 loc hig
      rcases prunePass_mem_deleted F b (exclusionPass R m1) loc hmemD with hbase | hkey
      · rw [exclusionPass_deleted_files] at hbase
        rw [hm1, (foldl_ignored_deleted E sp t F st0).2] at hbase
        exact List.not_mem_nil loc hbase
      · exact absurd hkey (dictGet_eq_none_iff.mp x1)

/-- Witness for C4: a prior record matching `*.pdf` is removed and reported
Ignored, not Deleted, with `pruneMissing = false` and an empty discovery. -/
theorem claim_C4_witness :
    dictGet "a.pdf" (create_or_update_treasure_map
        [("a.pdf", ⟨"a.pdf", "PDF", "", 1, 1, "L", "a.pdf", some "1.0", "a.pdf"⟩)]
        [("a.pdf", some "H1")] [] [⟨"*.pdf", false, false, false⟩] none false 2).rows =
      none ∧
    "a.pdf" ∈ (create_or_update_treasure_map
        [("a.pdf", ⟨"a.pdf", "PDF", "", 1, 1, "L", "a.pdf", some "1.0", "a.pdf"⟩)]
        [("a.pdf", some "H1")] [] [⟨"*.pdf", false, false, false⟩] none false
        2).result.ignored_files ∧
    "a.pdf" ∉ (create_or_update_treasure_map
        [("a.pdf", ⟨"a.pdf", "PDF", "", 1, 1, "L", "a.pdf", some "1.0", "a.pdf"⟩)]
        [("a.pdf", some "H1")] [] [⟨"*.pdf", false, false, false⟩] none false
        2).result.deleted_files := by
  obtain ⟨h1, h2⟩ := claim_C4
    [("a.pdf", ⟨"a.pdf", "PDF", "", 1, 1, "L", "a.pdf", some "1.0", "a.pdf"⟩)]
    [("a.pdf", some "H1")] [] [⟨"*.pdf", false, false, false⟩] none false 2
  have ha := h1 "a.pdf" (by decide)
  exact ⟨ha.1, ha.2 (Or.inl (by decide)), h2 "a.pdf" (ha.2 (Or.inl (by decide)))⟩

theorem getLast?_append_singleton {α : Type} (l : List α) (a : α) :
    (l ++ [a]).getLast? = some a := by
  induction l with
  | nil => rfl
  | cons x xs ih =>
    rw [List.cons_append]
    cases xs with
    | nil => rfl
    | cons y ys =>
      rw [List.cons_append] at ih ⊢
      rw [List.getLast?_cons_cons]
      exact ih

/-- C3: `_is_ignored` returns excluded exactly when some rule matches and
the last matching rule is not negated; no matching rule means not excluded;
and the two concrete rule lists from the spec behave as stated. -/
theorem claim_C3 :
    (∀ (rules : List IgnoreRule) (rel : String),
      is_ignored rel rules = last_match_verdict rel rules) ∧
    (∀ (rules : List IgnoreRule) (rel : String),
      (∀ r ∈ rules, rule_matches rel r = false) → is_ignored rel rules = false) ∧
    is_ignored "keep.pdf"
      [⟨"*.pdf", false, false, false⟩, ⟨"keep.pdf", true, false, false⟩] = false ∧
    is_ignored "keep.pdf"
      [⟨"*.pdf", false, false, false⟩, ⟨"keep.pdf", true, false, false⟩,
       ⟨"keep.pdf", false, false, false⟩] = true := by
  have hmain : ∀ (rules : List IgnoreRule) (rel : String),
      is_ignored rel rules = last_match_verdict rel rules := by
    intro rules rel
    induction rules using List.reverseRecOn with
    | nil => rfl
    | append_singleton l r ih =>
      unfold is_ignored at ih ⊢
      rw [List.foldl_append, List.foldl_cons, List.foldl_nil]
      unfold last_match_verdict at ih ⊢
      rw [List.filter_append]
      cases hm : rule_matches rel r
      · rw [if_neg (by simp)]
        have hfr : List.filter (fun q => rule_matches rel q) [r] = [] := by
          simp [List.filter_cons, hm]
        rw [hfr, List.append_nil]
        exact ih
      · rw [if_pos rfl]
        have hfr : List.filter (fun q => rule_matches rel q) [r] = [r] := by
          simp [List.filter_cons, hm]
        rw [hfr, getLast?_append_singleton]
  refine ⟨hmain, ?_, by decide, by decide⟩
  intro rules rel h
  rw [hmain]
  unfold last_match_verdict
  have hfil : rules.filter (fun q => rule_matches rel q) = [] := by
    rw [List.filter_eq_nil]
    intro r hr
    rw [h r hr]
    simp
  rw [hfil]
  rfl

/-- Witness for C3's no-match clause at a concrete non-matching rule list. -/
theorem claim_C3_witness :
    is_ignored "keep.pdf" [⟨"*.txt", false, false, false⟩] = false :=
  claim_C3.2.1 [⟨"*.txt", false, false, false⟩] "keep.pdf" (by decide)

/-- C8 as stated is false: the persisted value "2" is not of the form
"<major>.<minor>", yet it is not treated as "1.0" — bumping yields "2.1". -/
theorem claim_C8_counterexample :
    bump_version (some "2") = "2.1" ∧ bump_version (some "2") ≠ "1.1" := by
  decide

/-- C8 (amended): version parsing is total and defensive — an absent value,
or one whose major component (or present minor component) fails integer
parsing, is treated as (1, 0) before bumping, so bumping such a value yields
"1.1"; but a bare integer like "2" parses as (2, 0) and bumps to "2.1"
(components are parsed as Python integers, signs included, extra dotted
components ignored). -/
theorem claim_C8_amended :
    bump_version none = "1.1" ∧
    (∀ s : String,
      (match (splitOnChar '.' (pyStrip s).toList).map (fun l => String.mk l) with
        | [] => False
        | a :: rest =>
          pyInt a = none ∨ ∃ b bs, rest = b :: bs ∧ pyInt b = none) →
      bump_version (some s) = "1.1") ∧
    bump_version (some "2") = "2.1" := by
  refine ⟨rfl, ?_, by decide⟩
  intro s hs
  have hpv : parse_version (some s) = (1, 0) := by
    rcases hcase : (splitOnChar '.' (pyStrip s).toList).map (fun l => String.mk l) with
      _ | ⟨a, rest⟩
    · simp only [parse_version, hcase]
    · rw [hcase] at hs
      rcases hs with hpa | ⟨bb, bs, hrest, hpb⟩
      · simp only [parse_version, hcase, hpa]
      · subst hrest
        cases hpa2 : pyInt a with
        | none => simp only [parse_version, hcase, hpa2]
        | some major => simp only [parse_version, hcase, hpa2, hpb]
  unfold bump_version
  rw [hpv]
  decide

/-- Witness for the amended C8 on a concrete unparseable version string. -/
theorem claim_C8_witness : bump_version (some "garbage") = "1.1" :=
  claim_C8_amended.2.1 "garbage" (Or.inl (by decide))

/-- Modelled from the spec: a non-anchored directory-only rule matches iff
the pattern matches an ancestor segment-prefix of the path, i.e. a proper
prefix ending at a segment boundary (the final segment — the file itself —
is not a directory ancestor). -/
def spec_dir_only_matches (rel_posix : String) (pat : String) : Bool :=
  (List.range ((pathSegs rel_posix).length - 1)).any
    (fun i => posixMatch (pathSegs pat) ((pathSegs rel_posix).take (i + 1)))

/-- C10: the spec's own examples hold (`build/out.pdf` excluded,
`rebuild/out.pdf` not), but the code's directory-only loop also tests the
full path, so the pattern may match the final segment: a *file* named
"build" is excluded by the rule "build/", where the spec's
ancestor-segment-prefix matcher does not match — the code diverges from the
claim (and from its own "prefix shorter than full path" comment). -/
theorem claim_C10 :
    rule_matches "build/out.pdf" ⟨"build", false, true, false⟩ = true ∧
    rule_matches "rebuild/out.pdf" ⟨"build", false, true, false⟩ = false ∧
    spec_dir_only_matches "build/out.pdf" "build" = true ∧
    spec_dir_only_matches "rebuild/out.pdf" "build" = false ∧
    rule_matches "build" ⟨"build", false, true, false⟩ = true ∧
    spec_dir_only_matches "build" "build" = false ∧
    rule_matches "docs/build" ⟨"build", false, true, false⟩ = true ∧
    spec_dir_only_matches "docs/build" "build" = false := by
  decide

theorem exclusionPass_id_of_none (R : List IgnoreRule) (st : EngineState)
    (h : ∀ p : String × Row, p ∈ st.rows → is_ignored (toPosix p.1) R = false) :
    (exclusionPass R st).rows = st.rows ∧
    (exclusionPass R st).meta = st.meta ∧
    (exclusionPass R st).result.ignored_files = st.result.ignored_files ∧
    (exclusionPass R st).result.unchanged_files = st.result.unchanged_files ∧
    (exclusionPass R st).result.updated_files = st.result.updated_files ∧
    (exclusionPass R st).result.new_files = st.result.new_files ∧
    (exclusionPass R st).result.deleted_files = st.result.deleted_files := by
  cases hR : R.isEmpty
  case true =>
    rw [exclusionPass_empty R st hR]
    exact ⟨rfl, rfl, rfl, rfl, rfl, rfl, rfl⟩
  case false =>
    have hloc : ignoredLocsOf R st = [] := by
      rw [ignoredLocsOf, List.filter_eq_nil]
      intro loc hloc
      rcases List.mem_map.mp hloc with ⟨p, hp, rfl⟩
      simp [h p hp]
    rw [exclusionPass_eq R st hR, hloc]
    refine ⟨?_, ?_, by simp, rfl, rfl, rfl, rfl⟩
    · apply List.filter_eq_self.mpr
      intro p hp
      simp [h p hp]
    · apply List.filter_eq_self.mpr
      intro p hp
      rfl

theorem prunePass_id_of_found (F : List FoundFile) (b : Bool) (st : EngineState)
    (h : b = true → ∀ p : String × Row, p ∈ st.rows →
      p.1 ∈ F.map FoundFile.rel_location) :
    (prunePass F b st).rows = st.rows ∧
    (prunePass F b st).meta = st.meta ∧
    (prunePass F b st).result.deleted_files = st.result.deleted_files ∧
    (prunePass F b st).result.unchanged_files = st.result.unchanged_files ∧
    (prunePass F b st).result.updated_files = st.result.updated_files ∧
    (prunePass F b st).result.new_files = st.result.new_files ∧
    (prunePass F b st).result.ignored_files = st.result.ignored_files := by
  cases b
  case false =>
    rw [prunePass_false]
    exact ⟨rfl, rfl, rfl, rfl, rfl, rfl, rfl⟩
  case true =>
    have hall := h rfl
    have hdel : deletedLocsOf F st = [] := by
      rw [deletedLocsOf, List.filter_eq_nil]
      intro loc hloc
      rcases List.mem_map.mp hloc with ⟨p, hp, rfl⟩
      simp
      exact List.mem_map.mp (hall p hp)
    rw [prunePass_eq, hdel]
    refine ⟨?_, ?_, by simp, rfl, rfl, rfl, rfl⟩
    · apply List.filter_eq_self.mpr
      intro p hp
      simp
      exact List.mem_map.mp (hall p hp)
    · apply List.filter_eq_self.mpr
      intro p hp
      rfl

/-- The second pass over the output of a first pass: every discovered
location falls into the Unchanged branch, every cleanup filter is the
identity, and the state is returned untouched. -/
theorem second_pass_unchanged (S1rows : List (String × Row))
    (S1meta : List (String × Option String)) (F : List FoundFile) (R : List IgnoreRule)
    (sp : Option String) (b : Bool) (t : Nat)
    (hkeys : (S1rows.map Prod.fst).Nodup)
    (hcond : ∀ g ∈ F, ∃ row, dictGet g.rel_location S1rows = some row ∧
      row.lastSeen = t ∧ (g.sha256 = none ∨ metaGet S1meta g.rel_location = g.sha256))
    (hnotig : ∀ p : String × Row, p ∈ S1rows → is_ignored (toPosix p.1) R = false)
    (hfound : b = true → ∀ p : String × Row, p ∈ S1rows →
      p.1 ∈ F.map FoundFile.rel_location) :
    (create_or_update_treasure_map S1rows S1meta F R sp b t).rows = S1rows ∧
    (create_or_update_treasure_map S1rows S1meta F R sp b t).meta = S1meta ∧
    (create_or_update_treasure_map S1rows S1meta F R sp b t).result.unchanged_files =
      F.map FoundFile.rel_location ∧
    (create_or_update_treasure_map S1rows S1meta F R sp b t).result.new_files = [] ∧
    (create_or_update_treasure_map S1rows S1meta F R sp b t).result.updated_files = [] ∧
    (create_or_update_treasure_map S1rows S1meta F R sp b t).result.deleted_files = [] ∧
    (create_or_update_treasure_map S1rows S1meta F R sp b t).result.ignored_files = [] := by
  unfold create_or_update_treasure_map
  set st0 : EngineState :=
    { rows := S1rows, meta := S1meta,
      result := { total_found := F.length, new_files := [], updated_files := [],
                  unchanged_files := [], deleted_files := [], ignored_files := [],
                  changes := [] } } with hst0
  obtain ⟨m1, m2, m3, m4, m5, m6, m7⟩ :=
    foldl_all_unchanged S1rows S1meta sp t hkeys F st0 rfl rfl hcond
  obtain ⟨e1, e2, e3, e4, e5, e6, e7⟩ :=
    exclusionPass_id_of_none R (F.foldl (processFound S1rows sp t) st0)
      (fun p hp => hnotig p (by rw [m1] at hp; exact hp))
  obtain ⟨p1, p2, p3, p4, p5, p6, p7⟩ :=
    prunePass_id_of_found F b (exclusionPass R (F.foldl (processFound S1rows sp t) st0))
      (fun hb p hp => hfound hb p (by rw [e1, m1] at hp; exact hp))
  refine ⟨p1.trans (e1.trans m1), p2.trans (e2.trans m2), ?_, ?_, ?_, ?_, ?_⟩
  · rw [p4, e4, m3]
    exact List.nil_append _
  · rw [p6, e6, m5]
  · rw [p5, e5, m4]
  · rw [p3, e7, m6]
  · rw [p7, e3, m7]

/-- C6: reconciling the same discovered set (same locations and
fingerprints) against the record set produced by a first pass, with the
same date and flag, returns an identical record set (rows and stored
fingerprints) and a report that classifies every discovered location
Unchanged, with no New, Updated, Deleted or Ignored entries.  As in the
program, the discovered locations are distinct and none is matched by the
exclusion rules (discovery filters on the same rules). -/
theorem claim_C6 (E : List (String × Row)) (M : List (String × Option String))
    (F : List FoundFile) (R : List IgnoreRule) (sp : Option String) (b : Bool) (t : Nat)
    (hE : (E.map Prod.fst).Nodup)
    (hF : (F.map FoundFile.rel_location).Nodup)
    (hig : ∀ f ∈ F, is_ignored (toPosix f.rel_location) R = false) :
    (create_or_update_treasure_map (create_or_update_treasure_map E M F R sp b t).rows
        (create_or_update_treasure_map E M F R sp b t).meta F R sp b t).rows =
      (create_or_update_treasure_map E M F R sp b t).rows ∧
    (create_or_update_treasure_map (create_or_update_treasure_map E M F R sp b t).rows
        (create_or_update_treasure_map E M F R sp b t).meta F R sp b t).meta =
      (create_or_update_treasure_map E M F R sp b t).meta ∧
    (create_or_update_treasure_map (create_or_update_treasure_map E M F R sp b t).rows
        (create_or_update_treasure_map E M F R sp b t).meta F R sp b
        t).result.unchanged_files = F.map FoundFile.rel_location ∧
    (create_or_update_treasure_map (create_or_update_treasure_map E M F R sp b t).rows
        (create_or_update_treasure_map E M F R sp b t).meta F R sp b
        t).result.new_files = [] ∧
    (create_or_update_treasure_map (create_or_update_treasure_map E M F R sp b t).rows
        (create_or_update_treasure_map E M F R sp b t).meta F R sp b
        t).result.updated_files = [] ∧
    (create_or_update_treasure_map (create_or_update_treasure_map E M F R sp b t).rows
        (create_or_update_treasure_map E M F R sp b t).meta F R sp b
        t).result.deleted_files = [] ∧
    (create_or_update_treasure_map (create_or_update_treasure_map E M F R sp b t).rows
        (create_or_update_treasure_map E M F R sp b t).meta F R sp b
        t).result.ignored_files = [] := by
  refine second_pass_unchanged (create_or_update_treasure_map E M F R sp b t).rows
    (create_or_update_treasure_map E M F R sp b t).meta F R sp b t
    (create_keys_nodup E M F R sp b t hE hF)
    (fun g hg => found_row_after_pass E M F R sp b t g hg hF (hig g hg))
    (fun p hp => create_rows_not_ignored E M F R sp b t p hp)
    (fun hb p hp => create_rows_found E M F R sp t p (hb ▸ hp))

/-- Witness for C6 on a one-file discovery reconciled twice. -/
theorem claim_C6_witness :
    (create_or_update_treasure_map
        (create_or_update_treasure_map [] []
          [⟨"/r/a.pdf", "a.pdf", "a.pdf", "PDF", some "H1"⟩] [] none false 1).rows
        (create_or_update_treasure_map [] []
          [⟨"/r/a.pdf", "a.pdf", "a.pdf", "PDF", some "H1"⟩] [] none false 1).meta
        [⟨"/r/a.pdf", "a.pdf", "a.pdf", "PDF", some "H1"⟩] [] none false 1).rows =
      (create_or_update_treasure_map [] []
        [⟨"/r/a.pdf", "a.pdf", "a.pdf", "PDF", some "H1"⟩] [] none false 1).rows ∧
    (create_or_update_treasure_map
        (create_or_update_treasure_map [] []
          [⟨"/r/a.pdf", "a.pdf", "a.pdf", "PDF", some "H1"⟩] [] none false 1).rows
        (create_or_update_treasure_map [] []
          [⟨"/r/a.pdf", "a.pdf", "a.pdf", "PDF", some "H1"⟩] [] none false 1).meta
        [⟨"/r/a.pdf", "a.pdf", "a.pdf", "PDF", some "H1"⟩] [] none false 1).meta =
      (create_or_update_treasure_map [] []
        [⟨"/r/a.pdf", "a.pdf", "a.pdf", "PDF", some "H1"⟩] [] none false 1).meta ∧
    (create_or_update_treasure_map
        (create_or_update_treasure_map [] []
          [⟨"/r/a.pdf", "a.pdf", "a.pdf", "PDF", some "H1"⟩] [] none false 1).rows
        (create_or_update_treasure_map [] []
          [⟨"/r/a.pdf", "a.pdf", "a.pdf", "PDF", some "H1"⟩] [] none false 1).meta
        [⟨"/r/a.pdf", "a.pdf", "a.pdf", "PDF", some "H1"⟩] [] none false
        1).result.unchanged_files =
      List.map FoundFile.rel_location [⟨"/r/a.pdf", "a.pdf", "a.pdf", "PDF", some "H1"⟩] ∧
    (create_or_update_treasure_map
        (create_or_update_treasure_map [] []
          [⟨"/r/a.pdf", "a.pdf", "a.pdf", "PDF", some "H1"⟩] [] none false 1).rows
        (create_or_update_treasure_map [] []
          [⟨"/r/a.pdf", "a.pdf", "a.pdf", "PDF", some "H1"⟩] [] none false 1).meta
        [⟨"/r/a.pdf", "a.pdf", "a.pdf", "PDF", some "H1"⟩] [] none false
        1).result.new_files = [] ∧
    (create_or_update_treasure_map
        (create_or_update_treasure_map [] []
          [⟨"/r/a.pdf", "a.pdf", "a.pdf", "PDF", some "H1"⟩] [] none false 1).rows
        (create_or_update_treasure_map [] []
          [⟨"/r/a.pdf", "a.pdf", "a.pdf", "PDF", some "H1"⟩] [] none false 1).meta
        [⟨"/r/a.pdf", "a.pdf", "a.pdf", "PDF", some "H1"⟩] [] none false
        1).result.updated_files = [] ∧
    (create_or_update_treasure_map
        (create_or_update_treasure_map [] []
          [⟨"/r/a.pdf", "a.pdf", "a.pdf", "PDF", some "H1"⟩] [] none false 1).rows
        (create_or_update_treasure_map [] []
          [⟨"/r/a.pdf", "a.pdf", "a.pdf", "PDF", some "H1"⟩] [] none false 1).meta
        [⟨"/r/a.pdf", "a.pdf", "a.pdf", "PDF", some "H1"⟩] [] none false
        1).result.deleted_files = [] ∧
    (create_or_update_treasure_map
        (create_or_update_treasure_map [] []
          [⟨"/r/a.pdf", "a.pdf", "a.pdf", "PDF", some "H1"⟩] [] none false 1).rows
        (create_or_update_treasure_map [] []
          [⟨"/r/a.pdf", "a.pdf", "a.pdf", "PDF", some "H1"⟩] [] none false 1).meta
        [⟨"/r/a.pdf", "a.pdf", "a.pdf", "PDF", some "H1"⟩] [] none false
        1).result.ignored_files = [] :=
  claim_C6 [] [] [⟨"/r/a.pdf", "a.pdf", "a.pdf", "PDF", some "H1"⟩] [] none false 1
    (by decide) (by decide) (by decide)

end Dof
